import Mathlib

/-!
Verification development for the file-sorter repository.

The Python source under `src/app` is shallowly embedded: pure functions become
Lean functions over `List Char` / `String` / `List`-based maps, Python `dict`
iteration order is modelled by association lists, mutation is modelled by
explicit state passing, and `sorted` (a stable sort) is modelled with
`List.insertionSort` (which is stable for the orders used here).
-/

namespace FileSorter

/-- Python `str.strip()` whitespace set restricted to ASCII
(space, tab, newline, carriage return, vertical tab, form feed). -/
def isPySpace (c : Char) : Bool :=
  c = ' ' || c = '\t' || c = '\n' || c = '\r' || c = '\x0b' || c = '\x0c'

/-- Drop leading characters satisfying `p`. -/
def dropLeading (p : Char → Bool) (cs : List Char) : List Char :=
  cs.dropWhile p

/-- Drop trailing characters satisfying `p`. -/
def dropTrailing (p : Char → Bool) (cs : List Char) : List Char :=
  (cs.reverse.dropWhile p).reverse

/-- Python `s.strip()` on a character list. -/
def pyStrip (cs : List Char) : List Char :=
  dropTrailing isPySpace (dropLeading isPySpace cs)

/-- Python `s.strip(chars)` for a single strip character. -/
def pyStripChar (ch : Char) (cs : List Char) : List Char :=
  dropTrailing (fun c => c = ch) (dropLeading (fun c => c = ch) cs)

/-- Python `s.rstrip(chars)` for a single strip character. -/
def pyRstripChar (ch : Char) (cs : List Char) : List Char :=
  dropTrailing (fun c => c = ch) cs

/-- ASCII lowercase of one character (Python `str.lower` restricted to ASCII). -/
def lowerChar (c : Char) : Char :=
  if 'A' ≤ c ∧ c ≤ 'Z' then Char.ofNat (c.toNat + 32) else c

/-- ASCII lowercase of a character list. -/
def lowerChars (cs : List Char) : List Char :=
  cs.map lowerChar

/-- String versions of the helpers above. -/
def strStrip (s : String) : String := ⟨pyStrip s.data⟩

def strLower (s : String) : String := ⟨lowerChars s.data⟩

/-- Python `text.split(sep)` for a one-character separator: always returns at
least one (possibly empty) piece, never merges adjacent separators. -/
def pySplit (sep : Char) : List Char → List (List Char)
  | [] => [[]]
  | c :: rest =>
    let r := pySplit sep rest
    if c = sep then
      [] :: r
    else
      match r with
      | [] => [[c]]
      | h :: t => (c :: h) :: t

/-- `pySplit` never returns an empty list of pieces. -/
theorem pySplit_ne_nil (sep : Char) (cs : List Char) : pySplit sep cs ≠ [] := by
  induction cs with
  | nil => simp [pySplit]
  | cons c rest ih =>
    simp only [pySplit]
    split
    · simp
    · cases h : pySplit sep rest with
      | nil => simp
      | cons h t => simp

/-- No piece produced by `pySplit` contains the separator. -/
theorem pySplit_no_sep (sep : Char) (cs : List Char) :
    ∀ piece ∈ pySplit sep cs, sep ∉ piece := by
  induction cs with
  | nil =>
    intro piece hmem
    simp [pySplit] at hmem
    simp [hmem]
  | cons c rest ih =>
    intro piece hmem
    simp only [pySplit] at hmem
    by_cases hc : c = sep
    · simp [hc] at hmem
      rcases hmem with h | h
      · simp [h]
      · exact ih piece h
    · simp [hc] at hmem
      cases hr : pySplit sep rest with
      | nil => exact absurd hr (pySplit_ne_nil sep rest)
      | cons h t =>
        rw [hr] at hmem
        simp only [List.mem_cons] at hmem
        rcases hmem with heq | hmem
        · subst heq
          simp only [List.mem_cons, not_or]
          refine ⟨fun habs => hc habs.symm, fun habs => ih h (by simp [hr]) habs⟩
        · exact ih piece (by simp [hr, hmem])

/-- Python `'/'.join(pieces)` on character lists. -/
def joinWith (sep : Char) : List (List Char) → List Char
  | [] => []
  | [p] => p
  | p :: rest => p ++ sep :: joinWith sep rest

/-!
## CategoryPath (`src/app/categories.py`)

`_decompose_values(*values)` accepts heterogeneous Python values; `PyValue`
covers the four runtime shapes the source branches on: `None`, `str`,
`CategoryPath` (contributes its `parts`), and `PurePath` (contributes its
`parts`, which for an absolute path start with the root `'/'` entry).
-/

inductive PyValue where
  | none
  | str (s : String)
  | catPath (parts : List String)
  | purePath (parts : List String)
deriving Repr, DecidableEq

/-- The character filter of `_decompose_values`: keep printable ASCII. -/
def isPrintableAscii (c : Char) : Bool :=
  decide (32 ≤ c.toNat ∧ c.toNat ≤ 126)

/-- Cleaning of one `/`-piece inside `_decompose_values`:
`''.join(ch for ch in seg.strip() if 32 <= ord(ch) <= 126)`. -/
def cleanSegment (seg : List Char) : List Char :=
  (pyStrip seg).filter isPrintableAscii

/-- One value's contribution in `_decompose_values` (src/app/categories.py:8-26). -/
def decomposeValue : PyValue → List String
  | .none => []
  | .catPath ps => ps.filter (· ≠ "")
  | .purePath ps => ps.filter (· ≠ "")
  | .str s =>
    if pyStrip s.data = [] then []
    else
      (pySplit '/' (pyStrip s.data)).filterMap fun seg =>
        if cleanSegment seg = [] then Option.none
        else Option.some (⟨cleanSegment seg⟩ : String)

/-- `_decompose_values(*values)`: concatenate each value's contribution. -/
def decomposeValues (values : List PyValue) : List String :=
  values.flatMap decomposeValue

/-- `CategoryPath.__init__` (src/app/categories.py:29-36): decompose the
inputs; when nothing survives, fall back to the single `"Unknown"` segment. -/
def categoryPathParts (values : List PyValue) : List String :=
  if decomposeValues values = [] then ["Unknown"] else decomposeValues values

/-!
## Categories lookup and templates (`src/app/categories.py`)

Python dicts are modelled as association lists with first-match lookup;
the code only ever builds them with unique keys.
-/

/-- `dict.get` on an association-list model of a Python dict. -/
def dictGet {β : Type} (m : List (String × β)) (k : String) : Option β :=
  (m.find? (fun e => e.1 = k)).map (·.2)

/-- `Categories._path_lookup`: lowercased path tuple → canonical path tuple. -/
abbrev PathLookup := List (List String × List String)

/-- `dict.get` on the path-lookup table. -/
def pathGet (t : PathLookup) (k : List String) : Option (List String) :=
  (t.find? (fun e => e.1 = k)).map (·.2)

/-- The suffix-tolerating scan of `Categories._lookup`
(src/app/categories.py:363-368): Python's `for idx in range(len(parts)-1, 0, -1)`
counts `idx` down from `len-1` to `1`; `if canonical:` truthiness lets an empty
canonical tuple fall through to the next index. -/
def lookupSuffix (t : PathLookup) (parts norm : List String) : Nat → Option (List String)
  | 0 => Option.none
  | n + 1 =>
    match pathGet t (norm.take (n + 1)) with
    | Option.some canonical =>
      if canonical = [] then lookupSuffix t parts norm n
      else Option.some (canonical ++ parts.drop (n + 1))
    | Option.none => lookupSuffix t parts norm n

/-- `Categories._lookup` (src/app/categories.py:356-369).  When
`len(parts) == 1` the source repeats the failed exact lookup (`(norm[0],)` is
just `norm` again) and returns its result. -/
def catLookup (t : PathLookup) (parts : List String) : Option (List String) :=
  match pathGet t (parts.map strLower) with
  | Option.some canonical => Option.some canonical
  | Option.none =>
    if parts.length = 1 then pathGet t (parts.map strLower)
    else lookupSuffix t parts (parts.map strLower) (parts.length - 1)

/-- `Categories.normalize` (src/app/categories.py:268-275): decompose the
inputs, look them up, and rebuild a `CategoryPath` from the canonical parts. -/
def catNormalize (t : PathLookup) (values : List PyValue) : Option (List String) :=
  if decomposeValues values = [] then Option.none
  else
    match catLookup t (decomposeValues values) with
    | Option.none => Option.none
    | Option.some canonical =>
      Option.some (categoryPathParts (canonical.map PyValue.str))

/-- Truthiness of an optional string in Python (`None` and `""` are falsy). -/
def optTruthy : Option String → Bool
  | Option.none => false
  | Option.some s => s ≠ ""

/-- `Categories._normalize_for_comparison` (src/app/categories.py:535-542):
lowercase, then `re.sub(r'[\s_\-]+', '', ...)` removes every whitespace,
underscore and dash character. -/
def normalizeForComparison (s : String) : String :=
  ⟨(lowerChars s.data).filter (fun c => !(isPySpace c || c = '_' || c = '-'))⟩

/-- `Categories._deduplicate_suffix` (src/app/categories.py:565-587). -/
def dedupSuffix (suffixValue : String) (usedValues : List String) : String :=
  if suffixValue = "" ∨ usedValues = [] then
    (if suffixValue = "" then "" else suffixValue)
  else
    let suffixParts := (pySplit '/' suffixValue.data).filter (fun p => pyStrip p ≠ [])
    let normalizedUsed := (usedValues.filter (· ≠ "")).map normalizeForComparison
    let filtered := suffixParts.filter (fun p =>
      let np := normalizeForComparison ⟨p⟩
      np ≠ "" ∧ np ∉ normalizedUsed)
    ⟨joinWith '/' filtered⟩

/-- `Categories._strip_category_prefix` (src/app/categories.py:543-563). -/
def stripCategoryPrefix (aiCategory : String) (category : Option String) : String :=
  if aiCategory = "" then ""
  else
    let aiCatStr : String := ⟨pyStrip aiCategory.data⟩
    if ¬ optTruthy category ∨ aiCatStr = "" then aiCatStr
    else
      let categoryStr : String := ⟨pyStrip (category.getD "").data⟩
      if (categoryStr ++ "/").data.isPrefixOf aiCatStr.data then
        ⟨aiCatStr.data.drop (categoryStr.data.length + 1)⟩
      else aiCatStr

/-- `Categories._sanitize_component` (src/app/categories.py:589-600). -/
def sanitizeComponent (s : String) : String :=
  let text := pyStrip s.data
  if text = [] then ""
  else
    let t1 := text.map (fun c => if c = '/' then '_' else c)
    let t2 := t1.map (fun c =>
      if c = '<' ∨ c = '>' ∨ c = ':' ∨ c = '|' ∨ c = '?' ∨ c = '*' then '_' else c)
    ⟨pyStrip t2⟩

/-- `Categories._resolve_placeholder` (src/app/categories.py:482-509), as a
loop over the `|`-separated tokens; metadata values are modelled as strings,
so `_coerce_placeholder_value` is "strip, empty means absent".  Returns the
replacement text and the updated `used_values` accumulator. -/
def resolveLoop (meta : List (String × String)) (total : Nat) :
    List (List Char) → Nat → List String → (List Char × List String)
  | [], _, used => ([], used)
  | tok :: rest, idx, used =>
    let token : String := ⟨tok⟩
    let value0 := dictGet meta token
    let value1 :=
      if token = "suffix" ∧ optTruthy value0 ∧ used ≠ [] then
        Option.some (dedupSuffix (value0.getD "") used)
      else value0
    let value2 :=
      if token = "ai_category" ∧ optTruthy value1 then
        Option.some (stripCategoryPrefix (value1.getD "") (dictGet meta "category"))
      else value1
    let coerced : Option String :=
      match value2 with
      | Option.none => Option.none
      | Option.some v =>
        let t := pyStrip v.data
        if t = [] then Option.none else Option.some ⟨t⟩
    match coerced with
    | Option.some v =>
      let resolved : String := ⟨pyStrip v.data⟩
      let used' := if token ≠ "suffix" ∧ resolved ≠ "" then used ++ [resolved] else used
      (resolved.data, used')
    | Option.none =>
      if idx = total - 1 ∧ total > 1 then (tok, used)
      else resolveLoop meta total rest (idx + 1) used

/-- Entry point of `_resolve_placeholder`: split the placeholder content on
`|`, strip the tokens, drop the empty ones, then walk them in order. -/
def resolvePlaceholder (meta : List (String × String)) (content : List Char)
    (used : List String) : List Char × List String :=
  let tokens := ((pySplit '|' content).map pyStrip).filter (· ≠ [])
  if tokens = [] then ([], used)
  else resolveLoop meta tokens.length tokens 0 used

/-- `_PLACEHOLDER_PATTERN.sub` (pattern `\x7b([^\x7b\x7d]+)\x7d`): replace each
brace group whose content is nonempty and brace-free, scanning left to right,
threading the `used_values` accumulator through the replacement callback. -/
def substPlaceholders (meta : List (String × String)) :
    List Char → List String → (List Char × List String)
  | [], used => ([], used)
  | c :: cs, used =>
    if c = '\x7b' then
      let content := cs.takeWhile (fun ch => (ch != '\x7b') && (ch != '\x7d'))
      let rest := cs.drop content.length
      if content ≠ [] ∧ rest.head? = Option.some '\x7d' then
        let (rep, used') := resolvePlaceholder meta content used
        let (out, used'') := substPlaceholders meta rest.tail used'
        (rep ++ out, used'')
      else
        let (out, used') := substPlaceholders meta cs used
        ('\x7b' :: out, used')
    else
      let (out, used') := substPlaceholders meta cs used
      (c :: out, used')
termination_by cs _ => cs.length
decreasing_by
  all_goals simp only [List.length_cons, List.length_tail, List.length_drop]
  all_goals omega

/-- Substring check (Python `pat in text`) on character lists. -/
def containsSub (pat text : List Char) : Bool :=
  (List.range (text.length + 1)).any (fun i => pat.isPrefixOf (text.drop i))

/-- `pathlib.Path(name).suffix` for a bare file name: the final dot-suffix
when the last `.` is neither the first nor the last character. -/
def pathSuffix (name : List Char) : List Char :=
  match name.reverse.findIdx? (· = '.') with
  | Option.none => []
  | Option.some k =>
    let i := name.length - 1 - k
    if 0 < i ∧ i < name.length - 1 then name.drop i else []

/-- The per-part loop of `Categories.render_template`
(src/app/categories.py:436-458), threading `(used_values, filename_rendered)`;
`is_last_part` is "no parts remain". Returns the rendered segments, the final
`used_values`, and the final `filename_rendered` flag. -/
def renderParts (meta : List (String × String)) (hasRef : Bool)
    (filename : Option String) (sanitize : Bool) :
    List (List Char) → List String → Bool → (List String × List String × Bool)
  | [], used, fr => ([], used, fr)
  | raw :: rest, used, fr =>
    let isLast := rest = []
    let (replaced, used') := substPlaceholders meta raw used
    let (replaced2, fr') :=
      if isLast ∧ hasRef ∧ replaced ≠ [] ∧ optTruthy filename then
        let ext := pathSuffix (filename.getD "").data
        let r := if ext ≠ [] ∧ ¬ ext.isSuffixOf replaced then replaced ++ ext else replaced
        (r, true)
      else (replaced, fr)
    let segs := (pySplit '/' replaced2).filterMap (fun part =>
      let part' := if sanitize then (sanitizeComponent ⟨part⟩).data else part
      if part' = [] then Option.none else Option.some (⟨part'⟩ : String))
    let (moreSegs, used'', fr'') := renderParts meta hasRef filename sanitize rest used' fr'
    (segs ++ moreSegs, used'', fr'')

/-- `Categories.render_template` (src/app/categories.py:388-480), producing
the `segments` list that the source joins with `/`.  `categoryPath` models the
`CategoryPath` argument's parts (appended first; a `CategoryPath` is always
truthy and extending by an empty list is a no-op, so the append is
unconditional). -/
def renderTemplate (meta : List (String × String)) (template : String)
    (categoryPath : List String) (keptPath : Option String)
    (filename : Option String) (sanitize : Bool) : List String :=
  let templateLower := lowerChars template.data
  let hasRef := ["\x7bfilename\x7d", "\x7bfile_stem\x7d", "\x7btitle"].any
    (fun ref => containsSub ref.data templateLower)
  let templateParts := pySplit '/' (pyStripChar '/' template.data)
  let rendered := renderParts meta hasRef filename sanitize templateParts [] false
  let tSegs := rendered.1
  let used := rendered.2.1
  let filenameRendered := rendered.2.2
  let keptSegs :=
    if optTruthy keptPath ∧ ¬ filenameRendered then
      let dedup := dedupSuffix (keptPath.getD "") used
      if dedup ≠ "" then
        (pySplit '/' dedup.data).filterMap (fun part =>
          let part' := if sanitize then (sanitizeComponent ⟨part⟩).data else part
          if part' = [] then Option.none else Option.some (⟨part'⟩ : String))
      else []
    else []
  let fnSegs :=
    if ¬ filenameRendered ∧ optTruthy filename then
      let fn := if sanitize then sanitizeComponent (filename.getD "") else filename.getD ""
      if fn ≠ "" then [fn] else []
    else []
  categoryPath ++ tSegs ++ keptSegs ++ fnSegs

/-!
## Folder actions (`src/app/folder_action.py`)
-/

inductive FolderAction where
  | keep
  | keep_parent
  | keep_except
  | disaggregate
deriving Repr, DecidableEq

/-- `FolderAction.value` (the string enum value). -/
def FolderAction.value : FolderAction → String
  | .keep => "keep"
  | .keep_parent => "keep_parent"
  | .keep_except => "keep_except"
  | .disaggregate => "disaggregate"

/-- `FolderAction.from_string` (src/app/folder_action.py:24-51); `none`
models the `ValueError` raised on empty or unknown tokens.  The final
`for action in cls` loop compares against the four enum values in
declaration order. -/
def parseFolderAction (value : Option String) : Option FolderAction :=
  match value with
  | Option.none => Option.none
  | Option.some v =>
    if v = "" then Option.none
    else
      let normalized := strLower (strStrip v)
      if normalized ∈ ["move_as_unit", "moveasunit", "unit"] then Option.some .keep
      else if normalized ∈ ["strip", "disaggregate"] then Option.some .disaggregate
      else if normalized ∈ ["keep_parent", "keepparent", "parent"] then Option.some .keep_parent
      else if normalized ∈ ["keep_except", "keepexcept"] then Option.some .keep_except
      else if normalized = FolderAction.keep.value then Option.some .keep
      else if normalized = FolderAction.keep_parent.value then Option.some .keep_parent
      else if normalized = FolderAction.keep_except.value then Option.some .keep_except
      else if normalized = FolderAction.disaggregate.value then Option.some .disaggregate
      else Option.none

/-!
## Destination synthesis (`src/app/media.py`)

`MediaHelper.build_destination` and its helpers.  Paths are modelled as
`pathlib` part lists; `MAIN_TARGET` is the target root's part list.  The
compiled `SOURCE_WRAPPER_REGEX` is abstracted as a `fullmatch` predicate.
-/

structure DirEntry where
  value : String
  lower : String
  absPath : String
  folderAction : Option FolderAction := Option.none
  actionSource : Option String := Option.none
deriving Repr, DecidableEq

/-- The catalog handle `MediaHelper.categories` needs: the template map
(`Categories._templates`), keyed by path tuples, with the `__default__`
template stored under key `["__default__"]`. -/
structure CategoriesModel where
  templates : List (List String × String)

/-- `Categories._templates.get(key)`. -/
def tplGet (cats : CategoriesModel) (key : List String) : Option String :=
  (cats.templates.find? (fun e => e.1 = key)).map (·.2)

/-- `Categories.template_for` (src/app/categories.py:336-343). -/
def templateFor (cats : CategoriesModel) (path : List String) : Option String :=
  match tplGet cats path with
  | Option.some t => Option.some t
  | Option.none => tplGet cats ["__default__"]

structure MediaConfig where
  mainTarget : List String
  sources : List String
  stripDirs : List String
  sourceWrapperMatch : Option (String → Bool)
  categories : CategoriesModel

/-- The loop of `MediaHelper._collect_parent_entries`
(src/app/media.py:137-148): strip `/` from each part, skip empty parts and
parts ending in `:`, and accumulate the absolute path. -/
def collectParentLoop : List String → List String → List DirEntry
  | [], _ => []
  | part :: rest, acc =>
    let partText : String := ⟨pyStripChar '/' part.data⟩
    if partText = "" ∨ partText.data.getLast? = Option.some ':' then
      collectParentLoop rest acc
    else
      let acc' := acc ++ [partText]
      let absPath : String := "/" ++ String.intercalate "/" acc'
      { value := partText, lower := strLower partText, absPath := absPath } ::
        collectParentLoop rest acc'

/-- `MediaHelper._collect_parent_entries` over the parent's `pathlib` parts. -/
def collectParentEntries (parentParts : List String) : List DirEntry :=
  collectParentLoop parentParts []

/-- `MediaHelper._label_entries` (src/app/media.py:150-172): an entry whose
absolute path is an explicit key of the folder-action map gets that action
with source `"explicit"`; every other entry defaults to `KEEP` with no
source.  (The `lookup` variable in the source is only used for logging.) -/
def labelEntries (entries : List DirEntry)
    (folderActions : List (String × FolderAction)) : List DirEntry :=
  entries.map (fun e =>
    match dictGet folderActions e.absPath with
    | Option.some action =>
      { e with folderAction := Option.some action, actionSource := Option.some "explicit" }
    | Option.none =>
      { e with folderAction := Option.some FolderAction.keep, actionSource := Option.none })

/-- `MediaHelper._find_first_keep_index` (src/app/media.py:174-186). -/
def findFirstKeepIndex (entries : List DirEntry) : Option Nat :=
  entries.findIdx? (fun e =>
    decide (e.folderAction = Option.some FolderAction.keep ∨
            e.folderAction = Option.some FolderAction.keep_except))

/-- `MediaHelper._get_source_prefixes` (src/app/media.py:124-135): normalize
`SOURCES + STRIP_DIRS` and sort by length descending (Python's stable sort;
`insertionSort` with `b.length ≤ a.length` is the same stable order). -/
def getSourcePrefixes (cfg : MediaConfig) : List (List String) :=
  let raws := cfg.sources ++ cfg.stripDirs
  let prefixes := raws.filterMap (fun raw =>
    let item : List Char := pyStripChar '/' (pyStrip raw.data)
    if item = [] then Option.none
    else
      let parts := ((pySplit '/' item).filter (fun p => pyStrip p ≠ [])).map
        (fun p => strLower ⟨p⟩)
      if parts = [] then Option.none else Option.some parts)
  prefixes.insertionSort (fun a b => b.length ≤ a.length)

/-- The single-segment stripping loop of `_strip_prefix`: consume consecutive
leading entries whose lowercase value is in the strip set. -/
def countLeadingIn (stripNames : List String) : List String → Nat
  | [] => 0
  | x :: xs => if x ∈ stripNames then countLeadingIn stripNames xs + 1 else 0

/-- The category-prefix matching loop of `_strip_prefix`: count leading
pairwise-equal segments. -/
def countCatMatch : List String → List String → Nat
  | e :: es, c :: cs => if e = c then countCatMatch es cs + 1 else 0
  | _, _ => 0

/-- `MediaHelper._strip_prefix` (src/app/media.py:188-233): returns how many
leading entries are stripped (multi-segment source prefixes first, then
single-segment strip names, then one source wrapper, then the category
prefix). -/
def stripPrefixCount (cfg : MediaConfig) (entries : List DirEntry)
    (categoryParts : List String) : Nat :=
  let sourcePrefixes := getSourcePrefixes cfg
  let categoryPartsLower := categoryParts.map strLower
  let stripNames := sourcePrefixes.filterMap (fun p =>
    match p with
    | [x] => Option.some x
    | _ => Option.none)
  let entryLower := entries.map (·.lower)
  let s0 :=
    match sourcePrefixes.find? (fun p => decide (p.length > 1) && p.isPrefixOf entryLower) with
    | Option.some p => p.length
    | Option.none => 0
  let s1 := s0 + countLeadingIn stripNames (entryLower.drop s0)
  let s2 :=
    match cfg.sourceWrapperMatch with
    | Option.some matchFn =>
      match entries.get? s1 with
      | Option.some e => if matchFn e.value then s1 + 1 else s1
      | Option.none => s1
    | Option.none => s1
  s2 + countCatMatch (entryLower.drop s2) categoryPartsLower

/-- The condition flipping the `KEEP_EXCEPT` walk: an entry that carries an
explicit `DISAGGREGATE` action (src/app/media.py:272). -/
def isExplicitDisagg (e : DirEntry) : Bool :=
  decide (e.folderAction = Option.some FolderAction.disaggregate ∧
          e.actionSource = Option.some "explicit")

/-- The `KEEP_EXCEPT` walk of `build_destination` (src/app/media.py:267-280):
before the first explicit `DISAGGREGATE` everything is kept; that entry and
everything after it goes to the disaggregated side.  Returns
`(kept_parts, temp_disagg)`. -/
def keepExceptLoop : List DirEntry → Bool → (List String × List String)
  | [], _ => ([], [])
  | e :: rest, inDisagg =>
    if isExplicitDisagg e then
      let r := keepExceptLoop rest true
      (r.1, e.value :: r.2)
    else if inDisagg then
      let r := keepExceptLoop rest inDisagg
      (r.1, e.value :: r.2)
    else
      let r := keepExceptLoop rest inDisagg
      (e.value :: r.1, r.2)

def keepExceptSplit (entries : List DirEntry) : List String × List String :=
  keepExceptLoop entries false

/-- The inputs `build_destination` reads from a `FileNode`. -/
structure FileNodeModel where
  parentParts : List String
  name : String
  category : List String
  metadata : List (String × String)
  folderActions : List (String × FolderAction)

/-- The outcome of `build_destination`: the destination's `pathlib` parts and
the `FullPath` layer decomposition (source prefix / disaggregated / kept). -/
structure BuiltDestination where
  destination : List String
  sourceParts : List String
  disaggregated : List String
  kept : List String
deriving Repr, DecidableEq

/-- The kept/disaggregated split of `build_destination`
(src/app/media.py:260-290), given the labelled entries, `strip_end` and the
relative keep index.  Returns `(kept_parts, disagg_parts)`.  The source tests
`entries[keep_index]` (the head of the dropped suffix); matching on the
dropped list directly is the same test (`head?` is `some` iff the list is a
cons), and the empty case yields the same `([], disagg0)` either way. -/
def splitKeptDisagg (entries : List DirEntry) (stripEnd : Nat)
    (keepIndexRel : Option Nat) : List String × List String :=
  match keepIndexRel with
  | Option.some rel =>
    match entries.drop (stripEnd + rel) with
    | [] => ([], ((entries.drop stripEnd).take rel).map (·.value))
    | keepEntry :: t =>
      if keepEntry.folderAction = Option.some FolderAction.keep_except then
        ((keepExceptSplit (keepEntry :: t)).1,
          ((entries.drop stripEnd).take rel).map (·.value) ++
            (keepExceptSplit (keepEntry :: t)).2)
      else
        ((keepEntry :: t).map (·.value),
          ((entries.drop stripEnd).take rel).map (·.value))
  | Option.none =>
    ([], ((entries.drop stripEnd)).map (·.value))

/-- The destination assembly of `build_destination`
(src/app/media.py:292-328): explicit template + kept structure, kept
structure alone, template alone, or bare category + filename. -/
def destinationParts (cfg : MediaConfig) (node : FileNodeModel)
    (template : Option String) (keptParts : List String) : List String :=
  let base := cfg.mainTarget ++ node.category
  let isDefaultTemplate := template = templateFor cfg.categories ["__nonexistent__"]
  if optTruthy template ∧ ¬ isDefaultTemplate ∧ keptParts ≠ [] then
    let keptPathStr :=
      if keptParts = [] then Option.none
      else Option.some (String.intercalate "/" keptParts)
    cfg.mainTarget ++
      renderTemplate node.metadata (template.getD "") node.category keptPathStr
        (Option.some node.name) true
  else if keptParts ≠ [] then
    base ++ keptParts ++ [node.name]
  else if optTruthy template then
    cfg.mainTarget ++
      renderTemplate node.metadata (template.getD "") node.category Option.none
        (Option.some node.name) true
  else
    base ++ [node.name]

/-- `MediaHelper.build_destination` (src/app/media.py:237-345). -/
def buildDestination (cfg : MediaConfig) (node : FileNodeModel) : BuiltDestination :=
  let template := templateFor cfg.categories node.category
  let entries := labelEntries (collectParentEntries node.parentParts) node.folderActions
  let stripEnd := stripPrefixCount cfg entries node.category
  let keepIndexRel := findFirstKeepIndex (entries.drop stripEnd)
  let split := splitKeptDisagg entries stripEnd keepIndexRel
  { destination := destinationParts cfg node template split.1
    sourceParts := (entries.take stripEnd).map (·.value)
    disaggregated := split.2
    kept := split.1 }

/-!
## Folder-action resolution (`src/app/folder_policy.py`)

`_decide_folder_action` (the rules→AI→default chain on one folder's sample)
is abstracted as a total function `decide : String → FolderAction × String`
returning the action and its decision source; the source never stores a
`None` action for a sampled folder.  The embedding additionally returns the
list of folders actually submitted to `decide`, so "never passed to the
classifier chain" is expressible.
-/

/-- The sort key of `build_folder_action_map`: `p.count("/")`. -/
def slashCount (s : String) : Nat := s.data.count '/'

/-- `folder.rstrip("/").split("/")` at the character level. -/
def folderPartsC (folder : String) : List (List Char) :=
  pySplit '/' (pyRstripChar '/' folder.data)

/-- Python `"/".join(parts)` packed back into a string. -/
def joinParts (parts : List (List Char)) : String :=
  ⟨joinWith '/' parts⟩

/-- `_get_decided_parent` (src/app/folder_policy.py:159-179): scan
`"/".join(parts[:i])` for `i in range(1, len(parts))` (`range' 1 (len-1)`)
and return the first ancestor whose decided action is `KEEP`. -/
def getDecidedParent (folder : String) (decided : List (String × FolderAction)) :
    Option String :=
  (List.range' 1 ((folderPartsC folder).length - 1)).findSome? (fun i =>
    if dictGet decided (joinParts ((folderPartsC folder).take i)) =
        Option.some FolderAction.keep then
      Option.some (joinParts ((folderPartsC folder).take i))
    else Option.none)

/-- The per-folder loop of `build_folder_action_map`
(src/app/folder_policy.py:133-151): a folder with a blocking (`KEEP`)
decided parent is skipped entirely — no map entry, no classifier-chain
call.  State: `(actions, decisions, submitted)`. -/
def folderActionLoop (decide : String → FolderAction × String) :
    List String → List (String × FolderAction) → List (String × String) →
    List String →
    List (String × FolderAction) × List (String × String) × List String
  | [], actions, decisions, submitted => (actions, decisions, submitted)
  | folder :: rest, actions, decisions, submitted =>
    if (getDecidedParent folder actions).isSome then
      folderActionLoop decide rest actions decisions submitted
    else
      folderActionLoop decide rest (actions ++ [(folder, (decide folder).1)])
        (decisions ++ [(folder, (decide folder).2)]) (submitted ++ [folder])

/-- `build_folder_action_map` (src/app/folder_policy.py:109-156): process the
sampled folders sorted by depth (Python's stable sort on `p.count("/")`),
parents before children. -/
def buildFolderActionMap (decide : String → FolderAction × String)
    (folders : List String) :
    List (String × FolderAction) × List (String × String) × List String :=
  folderActionLoop decide
    (folders.insertionSort (fun a b => slashCount a ≤ slashCount b)) [] [] []

/-!
## Batch merge of folder actions (`src/app/planner.py`)
-/

/-- The merge in `Planner.classify_and_plan` (src/app/planner.py:218-226):
a dict is built from the persisted rows (`FolderAction.from_string`,
entries whose action fails to parse are skipped), then `dict.update` with the
newly resolved map overwrites common keys with the NEW action.  Modelled as
the lookup function of the merged dict. -/
def mergedActionMap (persisted : List (String × String))
    (newActions : List (String × FolderAction)) (folder : String) :
    Option FolderAction :=
  match dictGet newActions folder with
  | Option.some a => Option.some a
  | Option.none =>
    match dictGet persisted folder with
    | Option.some s => parseFolderAction (Option.some s)
    | Option.none => Option.none

/-!
## Catalog store (`src/app/db.py`)

`select_unclassified` is embedded with SQLite semantics: `LIKE` is
ASCII-case-insensitive with `%`/`_` wildcards, `length(path) -
length(replace(path, '/', ''))` is the number of `/` characters, and `ORDER
BY ..., path` ties break on the path's byte order (UTF-8 byte order equals
code-point order, which is Lean's `String` order).
-/

structure FileRow where
  path : String
  mime : String
  size : Nat
  category : Option String
  hash : Option String
  status : String
deriving Repr, DecidableEq

structure FolderActionRow where
  folderPath : String
  action : String
deriving Repr, DecidableEq

/-- SQLite `LIKE` with default `case_sensitive_like=OFF`: `%` matches any
sequence, `_` matches any single character, ASCII letters compare
case-insensitively.  Fuel-based recursion (each step shrinks
`pattern.length + text.length`, so `likeMatch` supplies enough fuel). -/
def likeMatchFuel : Nat → List Char → List Char → Bool
  | 0, _, _ => false
  | _ + 1, [], [] => true
  | _ + 1, [], _ :: _ => false
  | fuel + 1, '%' :: ps, [] => likeMatchFuel fuel ps []
  | fuel + 1, '%' :: ps, t :: ts =>
    likeMatchFuel fuel ps (t :: ts) || likeMatchFuel fuel ('%' :: ps) ts
  | fuel + 1, '_' :: ps, _ :: ts => likeMatchFuel fuel ps ts
  | _ + 1, '_' :: _, [] => false
  | fuel + 1, p :: ps, t :: ts =>
    decide (lowerChar p = lowerChar t) && likeMatchFuel fuel ps ts
  | _ + 1, _ :: _, [] => false

def likeMatch (p t : List Char) : Bool :=
  likeMatchFuel (p.length + t.length + 1) p t

/-- The `NOT EXISTS` subquery of `select_unclassified`
(src/app/db.py:132-136): some `folder_actions` row with action `'keep'`
whose patterns `folder_path || '/%'` or `folder_path` capture the file
path. -/
def keptByFolder (fas : List FolderActionRow) (path : String) : Bool :=
  fas.any (fun fa =>
    fa.action == "keep" &&
    (likeMatch (fa.folderPath ++ "/%").data path.data ||
     likeMatch fa.folderPath.data path.data))

/-- The `WHERE` clause of `select_unclassified` (src/app/db.py:126-136). -/
def unclassifiedPred (fas : List FolderActionRow) (r : FileRow) : Bool :=
  r.category == Option.none && !(r.hash == Option.none) &&
  r.status == "scanned" && !(keptByFolder fas r.path)

/-- The `ORDER BY` key of `select_unclassified`: depth
(`length(path) - length(replace(path,'/',''))`), then path bytes. -/
def rowKeyLE (a b : FileRow) : Prop :=
  slashCount a.path < slashCount b.path ∨
  (slashCount a.path = slashCount b.path ∧ a.path ≤ b.path)

instance : DecidableRel rowKeyLE := fun a b => by
  unfold rowKeyLE; infer_instance

/-- `Database.select_unclassified` (src/app/db.py:120-142) over the `files`
and `folder_actions` tables. -/
def selectUnclassified (files : List FileRow) (fas : List FolderActionRow)
    (limit : Option Nat) : List FileRow :=
  let rows := (files.filter (unclassifiedPred fas)).insertionSort rowKeyLE
  match limit with
  | Option.some n => rows.take n
  | Option.none => rows

/-!
## Rules classifier (`src/app/classifiers/rules.py`)

Compiled regexes are abstracted as their `.match` predicates (anchored at
the string start by `re.match`); a rule with pattern `*` or empty has no
predicate.
-/

inductive RequiresAI where
  | final
  | ai
deriving Repr, DecidableEq

structure CompiledRuleModel where
  pathMatch : Option (String → Bool)
  mimeMatch : Option (String → Bool)
  category : List String
  folderAction : Option FolderAction
  requiresAI : RequiresAI

/-- `CompiledRule.match` (src/app/rules_models.py:19-30), as a Boolean. -/
def ruleMatches (r : CompiledRuleModel) (relPath mime : String) : Bool :=
  (match r.pathMatch with
   | Option.some f => f relPath
   | Option.none => true) &&
  (match r.mimeMatch with
   | Option.some f => f mime
   | Option.none => true)

/-- `RulesClassifier._match_rule` (src/app/classifiers/rules.py:136-145):
prepend `/` when missing, first matching rule wins. -/
def matchRule (rules : List CompiledRuleModel) (relPath mime : String) :
    Option CompiledRuleModel :=
  let raw := if relPath.data.head? = Option.some '/' then relPath else "/" ++ relPath
  rules.find? (fun r => ruleMatches r raw mime)

/-- `RulesClassifier.match` (src/app/classifiers/rules.py:147-149):
`key = rel_path or name or ""`. -/
def classifierMatch (rules : List CompiledRuleModel)
    (name relPath mime : String) : Option CompiledRuleModel :=
  let key := if relPath ≠ "" then relPath else if name ≠ "" then name else ""
  matchRule rules key mime

structure FolderActionResponseModel where
  action : Option FolderAction
  isFinal : Bool
  hint : Option FolderAction
  reason : Option String
deriving Repr

/-- `FolderActionResponse.decision`. -/
def responseDecision (action : FolderAction) (reason : String) :
    FolderActionResponseModel :=
  { action := Option.some action, isFinal := true, hint := Option.none,
    reason := Option.some reason }

/-- `FolderActionResponse.delegate`. -/
def responseDelegate (hint : Option FolderAction) (reason : String) :
    FolderActionResponseModel :=
  { action := Option.none, isFinal := false, hint := hint,
    reason := Option.some reason }

/-- One direct child as shown to the rules classifier: `name`, `type`
(`"dir"`/`"file"`) and, for files, the mime (`child.get("mime", "*")`). -/
structure ChildEntry where
  name : String
  ctype : String
  mime : Option String := Option.none
deriving Repr

structure FolderRequestModel where
  folderPath : String
  folderName : String
  children : List ChildEntry
  totalFiles : Nat
  ruleHint : Option FolderAction := Option.none

/-- `child_path = f"{request.folder_path.rstrip('/')}/{child_name}"`. -/
def childPathOf (folderPath : String) (child : ChildEntry) : String :=
  (⟨pyRstripChar '/' folderPath.data⟩ : String) ++ "/" ++ child.name

/-- The children scan of `RulesClassifier.advise_folder_action`
(src/app/classifiers/rules.py:162-192): the first child that yields a
decision or a delegation ends the scan. -/
def adviseChildrenLoop (rules : List CompiledRuleModel) (folderPath : String) :
    List ChildEntry → Option FolderActionResponseModel
  | [] => Option.none
  | child :: rest =>
    if child.ctype = "dir" then
      if ((classifierMatch rules child.name (childPathOf folderPath child) "*").map
            (·.folderAction)).join = Option.some FolderAction.keep_parent ∨
         ((classifierMatch rules "" (childPathOf folderPath child ++ "/") "*").map
            (·.folderAction)).join = Option.some FolderAction.keep_parent then
        Option.some (responseDecision .keep ("keep_parent:" ++ child.name))
      else adviseChildrenLoop rules folderPath rest
    else if child.ctype = "file" then
      match classifierMatch rules child.name (childPathOf folderPath child)
          (child.mime.getD "*") with
      | Option.none => adviseChildrenLoop rules folderPath rest
      | Option.some rule =>
        if rule.folderAction = Option.some FolderAction.keep_parent then
          Option.some (responseDecision .keep ("keep_parent:" ++ child.name))
        else if rule.folderAction.isSome ∧ rule.requiresAI = RequiresAI.final then
          Option.some (responseDecision (rule.folderAction.getD .keep) "rule:final")
        else if rule.requiresAI = RequiresAI.ai then
          Option.some (responseDelegate rule.folderAction "rule:requires_ai")
        else adviseChildrenLoop rules folderPath rest
    else adviseChildrenLoop rules folderPath rest

/-- `RulesClassifier.advise_folder_action`
(src/app/classifiers/rules.py:151-207): children scan first, then the
explicit folder rule, then delegate with the safe default hint. -/
def adviseFolderAction (rules : List CompiledRuleModel)
    (req : FolderRequestModel) : FolderActionResponseModel :=
  match adviseChildrenLoop rules req.folderPath req.children with
  | Option.some resp => resp
  | Option.none =>
    let folderMatch :=
      match classifierMatch rules "" req.folderPath "" with
      | Option.some m => Option.some m
      | Option.none => classifierMatch rules "" (req.folderPath ++ "/") ""
    match folderMatch with
    | Option.some rule =>
      if rule.folderAction.isSome ∧ rule.requiresAI = RequiresAI.final then
        responseDecision (rule.folderAction.getD .keep) "rule:folder:final"
      else if rule.requiresAI = RequiresAI.ai then
        responseDelegate rule.folderAction "rule:folder:requires_ai"
      else responseDelegate (Option.some .disaggregate) "rule:no_match"
    | Option.none => responseDelegate (Option.some .disaggregate) "rule:no_match"

/-!
## Classifier multiplexer (`src/app/classifiers/multiplexed.py`)

Wall-clock times, latencies and weights are rationals.  `Metric` /
`MetricSnapshot` collapse to one record (the snapshot is a plain read).
-/

structure MetricState where
  success : Nat
  failure : Nat
  latencyMs : ℚ
  firstStarted : Option ℚ
  lastStarted : Option ℚ
deriving DecidableEq

def emptyMetric : MetricState :=
  { success := 0, failure := 0, latencyMs := 0,
    firstStarted := Option.none, lastStarted := Option.none }

/-- `MetricSnapshot.requests`. -/
def MetricState.requests (m : MetricState) : Nat := m.success + m.failure

/-- `MetricSnapshot.success_rate`. -/
def MetricState.successRate (m : MetricState) : ℚ :=
  if m.requests = 0 then 0 else (m.success : ℚ) / (m.requests : ℚ)

/-- `MetricSnapshot.avg_latency_ms`. -/
def MetricState.avgLatencyMs (m : MetricState) : ℚ :=
  if m.success = 0 then 0 else m.latencyMs / (m.success : ℚ)

/-- `Metric.record` (src/app/metrics.py:46-55); durations are clamped to
`[0, MAX_LATENCY_SECONDS]` with `MAX_LATENCY_SECONDS = 120`. -/
def MetricState.record (m : MetricState) (startedAt durationS : ℚ)
    (success : Bool) : MetricState :=
  let d := max 0 (min durationS 120)
  { success := if success then m.success + 1 else m.success
    failure := if success then m.failure else m.failure + 1
    latencyMs := m.latencyMs + d * 1000
    firstStarted :=
      match m.firstStarted with
      | Option.none => Option.some startedAt
      | Option.some f => Option.some f
    lastStarted := Option.some startedAt }

structure WorkerModel where
  name : String
  total : MetricState
  window : MetricState
  lastUsed : ℚ
  consecutiveFailures : Nat
  currentWeight : ℚ
  cooldownUntil : ℚ
  inFlight : Nat
deriving DecidableEq

/-- The cooldown test of `_available_workers`
(src/app/classifiers/multiplexed.py:191): `worker.cooldown_until and now <
worker.cooldown_until` (`0.0` is falsy). -/
def workerInCooldown (now : ℚ) (w : WorkerModel) : Bool :=
  !(w.cooldownUntil == 0) && decide (now < w.cooldownUntil)

/-- The primary/fallback classification of one surviving worker
(src/app/classifiers/multiplexed.py:193-203). -/
def isPrimaryWorker (w : WorkerModel) : Bool :=
  if w.total.requests = 0 ∧ w.inFlight = 0 then true
  else if w.total.success = 0 then false
  else decide (w.total.successRate ≥ 2/5)

/-- The workers not skipped by the cooldown test (the loop `continue`). -/
def consideredWorkers (now : ℚ) (ws : List WorkerModel) : List WorkerModel :=
  ws.filter (fun w => !(workerInCooldown now w))

/-- `MultiplexedClassifier._available_workers`
(src/app/classifiers/multiplexed.py:186-208); `none` models the
`RuntimeError` raised when no worker survives. -/
def availableWorkers (now : ℚ) (ws : List WorkerModel) :
    Option (List WorkerModel) :=
  if (consideredWorkers now ws).filter isPrimaryWorker ≠ [] then
    Option.some ((consideredWorkers now ws).filter isPrimaryWorker)
  else if (consideredWorkers now ws).filter (fun w => !(isPrimaryWorker w)) ≠ [] then
    Option.some ((consideredWorkers now ws).filter (fun w => !(isPrimaryWorker w)))
  else Option.none

/-- `MultiplexedClassifier._worker_weight`
(src/app/classifiers/multiplexed.py:210-217); the default weight is `5.0`. -/
def workerWeight (w : WorkerModel) : ℚ :=
  if w.total.success = 0 then 5
  else
    let avg := w.total.avgLatencyMs
    if avg ≤ 0 then 5
    else max (1/10) (min 10 (1000 / (avg + 1)))

/-- First maximum of the (already incremented) current weights: the source's
loop updates `chosen` only on a strict increase. -/
def pickFirstMax : List WorkerModel → Option WorkerModel
  | [] => Option.none
  | w :: rest =>
    Option.some (rest.foldl
      (fun c x => if x.currentWeight > c.currentWeight then x else c) w)

/-- `MultiplexedClassifier._select_worker`
(src/app/classifiers/multiplexed.py:163-184).  Each worker's
`current_weight` is incremented before the comparison, so the chosen worker
is the first maximum of the incremented weights; its weight is then
decremented by the total weight. -/
def selectWorker (now : ℚ) (ws : List WorkerModel) : Option WorkerModel :=
  match availableWorkers now ws with
  | Option.none => Option.none
  | Option.some available =>
    match (available.filter (fun w =>
        decide (w.total.requests = 0) && decide (w.inFlight = 0))).head? with
    | Option.some selected => Option.some { selected with currentWeight := 0 }
    | Option.none =>
      match pickFirstMax (available.map (fun w =>
          { w with currentWeight := w.currentWeight + workerWeight w })) with
      | Option.none => Option.none
      | Option.some chosen =>
        Option.some
          (if (available.map workerWeight).sum > 0 then
            { chosen with
                currentWeight := chosen.currentWeight - (available.map workerWeight).sum }
          else chosen)

/-- The classifier response as returned by `MultiplexedClassifier.classify`:
the category path and the carried error (the exception, abstracted as its
message); the metrics blob is not modelled beyond the error payload. -/
structure ClassifierResponseModel where
  path : List String
  error : Option String
deriving Repr, DecidableEq

/-- One `MultiplexedClassifier.classify` call
(src/app/classifiers/multiplexed.py:36-91) as a state transformer on the
selected worker, given the inner call's outcome.  `started` and `ended` are
the two `time.time()` readings (the cooldown reading coincides with
`ended`); `dumpFires` tells whether `_maybe_dump_stats` resets the rolling
window in the `finally` block. -/
def classifyStep (failureCooldown : ℚ) (w : WorkerModel) (started ended : ℚ)
    (outcome : Except String (List String)) (dumpFires : Bool) :
    WorkerModel × ClassifierResponseModel :=
  let w0 := { w with inFlight := w.inFlight + 1, lastUsed := started }
  let duration := ended - started
  let (w1, resp) : WorkerModel × ClassifierResponseModel :=
    match outcome with
    | Except.ok path =>
      ({ w0 with
          total := w0.total.record started duration true
          window := w0.window.record started duration true
          consecutiveFailures := 0 },
        { path := path, error := Option.none })
    | Except.error exc =>
      let wf := { w0 with
        total := w0.total.record started duration false
        window := w0.window.record started duration false
        consecutiveFailures := w0.consecutiveFailures + 1 }
      let backoff : Nat := min 5 wf.consecutiveFailures
      ({ wf with cooldownUntil := ended + failureCooldown * (backoff : ℚ) },
        { path := ["Unknown"], error := Option.some exc })
  let w2 := if dumpFires then { w1 with window := emptyMetric } else w1
  ({ w2 with inFlight := w2.inFlight - 1 }, resp)

/-- Marker for the `None`/`str` branches of `_decompose_values` (the branches
that split on `/` and clean), as opposed to the `CategoryPath`/`PurePath`
branches that re-use existing parts verbatim. -/
def PyValue.isTextual : PyValue → Bool
  | .none => true
  | .str _ => true
  | _ => false

/-!
## Helper lemmas
-/

theorem mem_of_mem_dropLeading {p : Char → Bool} {c : Char} {cs : List Char}
    (h : c ∈ dropLeading p cs) : c ∈ cs := by
  unfold dropLeading at h
  exact (List.dropWhile_sublist p).mem h

theorem mem_of_mem_dropTrailing {p : Char → Bool} {c : Char} {cs : List Char}
    (h : c ∈ dropTrailing p cs) : c ∈ cs := by
  unfold dropTrailing at h
  rw [List.mem_reverse] at h
  exact (List.mem_reverse).mp ((List.dropWhile_sublist p).mem h)

theorem mem_of_mem_pyStrip {c : Char} {cs : List Char}
    (h : c ∈ pyStrip cs) : c ∈ cs :=
  mem_of_mem_dropLeading (mem_of_mem_dropTrailing h)

theorem decomposeValue_ne_empty {v : PyValue} {s : String}
    (h : s ∈ decomposeValue v) : s ≠ "" := by
  cases v with
  | none => simp [decomposeValue] at h
  | catPath ps =>
    simp only [decomposeValue] at h
    exact of_decide_eq_true (List.mem_filter.mp h).2
  | purePath ps =>
    simp only [decomposeValue] at h
    exact of_decide_eq_true (List.mem_filter.mp h).2
  | str t =>
    simp only [decomposeValue] at h
    split at h
    · simp at h
    · rw [List.mem_filterMap] at h
      obtain ⟨seg, _, hsome⟩ := h
      by_cases hc : cleanSegment seg = []
      · simp [hc] at hsome
      · simp only [hc, if_neg, not_false_iff, Option.some.injEq] at hsome
        subst hsome
        intro habs
        apply hc
        have := congrArg String.data habs
        simpa using this

theorem decomposeValue_str_chars {t : String} {s : String}
    (h : s ∈ decomposeValue (PyValue.str t)) :
    ∀ c ∈ s.data, (32 ≤ c.toNat ∧ c.toNat ≤ 126) ∧ c ≠ '/' := by
  simp only [decomposeValue] at h
  split at h
  · simp at h
  · rw [List.mem_filterMap] at h
    obtain ⟨seg, hseg, hsome⟩ := h
    by_cases hc : cleanSegment seg = []
    · simp [hc] at hsome
    · simp [hc] at hsome
      subst hsome
      intro c hcmem
      have hcmem' : c ∈ cleanSegment seg := by simpa using hcmem
      unfold cleanSegment at hcmem'
      rw [List.mem_filter] at hcmem'
      refine ⟨by simpa [isPrintableAscii] using hcmem'.2, ?_⟩
      have hmem_seg : c ∈ seg := mem_of_mem_pyStrip hcmem'.1
      intro habs
      subst habs
      exact pySplit_no_sep '/' _ seg hseg hmem_seg

/-!
## Claim theorems
-/

/-- C10 counterexample: `_decompose_values` has a `PurePath` branch that
extends the parts verbatim, so `CategoryPath(PurePosixPath("/a"))` (whose
`parts` are `('/', 'a')`) yields the segment `"/"`, which contains `'/'` —
refuting "for every input, ... no resulting segment is empty or contains
`'/'`". -/
theorem categoryPathParts_purePath_slash_segment :
    categoryPathParts [PyValue.purePath ["/", "a"]] = ["/", "a"] ∧
    '/' ∈ ("/" : String).data := by
  constructor
  · rfl
  · decide

/-- C10 (amended): constructing a `CategoryPath` never fails and always
yields a non-empty sequence of non-empty segments, and when nothing survives
decomposition the result is the sentinel `["Unknown"]`; the split-on-`/`,
trim, printable-ASCII-only guarantee (no segment contains `'/'` or a control
character) holds for `None`/string inputs (the `CategoryPath`/`PurePath`
branches re-use existing non-empty parts verbatim instead). -/
theorem categoryPathParts_invariants (values : List PyValue) :
    (categoryPathParts values ≠ [] ∧
      ∀ seg ∈ categoryPathParts values, seg ≠ "") ∧
    (decomposeValues values = [] → categoryPathParts values = ["Unknown"]) ∧
    (values.all PyValue.isTextual = true →
      ∀ seg ∈ categoryPathParts values, ∀ c ∈ seg.data,
        (32 ≤ c.toNat ∧ c.toNat ≤ 126) ∧ c ≠ '/') := by
  refine ⟨⟨?_, ?_⟩, ?_, ?_⟩
  · unfold categoryPathParts
    split
    · simp
    · simpa using by assumption
  · intro seg hseg
    unfold categoryPathParts at hseg
    split at hseg
    · simp at hseg
      simp [hseg]
    · unfold decomposeValues at hseg
      rw [List.mem_flatMap] at hseg
      obtain ⟨v, _, hv⟩ := hseg
      exact decomposeValue_ne_empty hv
  · intro h
    unfold categoryPathParts
    simp [h]
  · intro htext seg hseg
    unfold categoryPathParts at hseg
    split at hseg
    · simp at hseg
      subst hseg
      decide
    · unfold decomposeValues at hseg
      rw [List.mem_flatMap] at hseg
      obtain ⟨v, hvmem, hv⟩ := hseg
      rw [List.all_eq_true] at htext
      have := htext v hvmem
      cases v with
      | none => simp [decomposeValue] at hv
      | str t => exact decomposeValue_str_chars hv
      | catPath ps => simp [PyValue.isTextual] at this
      | purePath ps => simp [PyValue.isTextual] at this

/-- Witness for C10 (amended): the hypotheses are satisfiable at the concrete
input `[" a/ b£c "]` (one string value with whitespace, a slash and a
non-ASCII character). -/
theorem categoryPathParts_invariants_witness :
    decomposeValues [PyValue.str ""] = [] ∧
    categoryPathParts [PyValue.str ""] = ["Unknown"] ∧
    ∀ seg ∈ categoryPathParts [PyValue.str " a/ b "], ∀ c ∈ seg.data,
      (32 ≤ c.toNat ∧ c.toNat ≤ 126) ∧ c ≠ '/' := by
  refine ⟨by decide, ?_, ?_⟩
  · exact (categoryPathParts_invariants [PyValue.str ""]).2.1 (by decide)
  · exact (categoryPathParts_invariants [PyValue.str " a/ b "]).2.2 (by decide)

theorem lookupSuffix_finds (t : PathLookup) (parts norm : List String) (i : Nat)
    (c : List String) (hi1 : 1 ≤ i)
    (hhit : pathGet t (norm.take i) = Option.some c) (hc : c ≠ []) :
    ∀ n, i ≤ n →
      (∀ j, i < j → j ≤ n →
        pathGet t (norm.take j) = Option.none ∨
        pathGet t (norm.take j) = Option.some []) →
      lookupSuffix t parts norm n = Option.some (c ++ parts.drop i) := by
  intro n
  induction n with
  | zero => intro h; omega
  | succ n ih =>
    intro hin habove
    unfold lookupSuffix
    by_cases heq : i = n + 1
    · subst heq
      rw [hhit]
      simp [hc]
    · have hlt : i ≤ n := by omega
      rcases habove (n + 1) (by omega) (le_refl _) with hnone | hempty
      · rw [hnone]
        exact ih hlt (fun j hj1 hj2 => habove j hj1 (by omega))
      · rw [hempty]
        simp only [if_pos rfl]
        exact ih hlt (fun j hj1 hj2 => habove j hj1 (by omega))

/-- C9 counterexample: with the single known category `docs ↦ Docs`, the
input `"docs/a/b"` extends the known path by TWO segments; the claim says
such an input "is not normalized to a category", but `normalize` returns
`Docs/a/b`. -/
theorem catNormalize_two_extra_segments :
    catNormalize [(["docs"], ["Docs"])] [PyValue.str "docs/a/b"] =
      Option.some ["Docs", "a", "b"] ∧
    pathGet [(["docs"], ["Docs"])] ["docs", "a", "b"] = Option.none ∧
    pathGet [(["docs"], ["Docs"])] ["docs", "a"] = Option.none ∧
    pathGet [(["docs"], ["Docs"])] ["docs"] = Option.some ["Docs"] := by
  refine ⟨?_, by decide, by decide, by decide⟩
  rfl

/-- C9 (amended): `Categories._lookup` is a case-insensitive lookup that
tolerates ANY number of extra suffix segments: when the exact path is
unknown, the longest known proper prefix (with a non-empty canonical value)
is looked up and the whole remaining tail is appended verbatim — one extra
segment yields canonical + tail segment, and two or more extra segments are
passed through the same way rather than rejected. -/
theorem catLookup_suffix_passthrough (t : PathLookup) (parts : List String)
    (i : Nat) (c : List String)
    (hmiss : pathGet t (parts.map strLower) = Option.none)
    (hi1 : 1 ≤ i) (hilen : i < parts.length)
    (hhit : pathGet t ((parts.map strLower).take i) = Option.some c)
    (hc : c ≠ [])
    (habove : ∀ j, i < j → j < parts.length →
      pathGet t ((parts.map strLower).take j) = Option.none ∨
      pathGet t ((parts.map strLower).take j) = Option.some []) :
    catLookup t parts = Option.some (c ++ parts.drop i) := by
  unfold catLookup
  rw [hmiss]
  have hne1 : ¬ parts.length = 1 := by omega
  simp only [hne1, if_false]
  exact lookupSuffix_finds t parts _ i c hi1 hhit hc (parts.length - 1) (by omega)
    (fun j hj1 hj2 => habove j hj1 (by omega))

/-- Witness for C9 (amended): `docs/a/b` against the catalog that only knows
`docs` resolves through the prefix at index 1. -/
theorem catLookup_suffix_passthrough_witness :
    catLookup [(["docs"], ["Docs"])] ["docs", "a", "b"] =
      Option.some (["Docs"] ++ ["docs", "a", "b"].drop 1) := by
  refine catLookup_suffix_passthrough [(["docs"], ["Docs"])] ["docs", "a", "b"]
    1 ["Docs"] (by decide) (by decide) (by decide) (by decide) (by decide) ?_
  intro j hj1 hj2
  have hj : j = 2 := by
    simp only [List.length_cons, List.length_nil] at hj2
    omega
  subst hj
  exact Or.inl (by decide)

/-- C4: the planner's merge comment says "persisted takes precedence", and so
do the spec and the claim, but `merged_action_map.update(new_folder_action_map)`
makes the NEW decision win.  Evaluated at the failing input: the persisted
action for `/src/a` is `keep` (and parses as such), the batch re-derivation
says `disaggregate`, and the merged map yields `disaggregate`. -/
theorem mergedActionMap_new_wins :
    mergedActionMap [("/src/a", "keep")] [("/src/a", FolderAction.disaggregate)]
        "/src/a" = Option.some FolderAction.disaggregate ∧
    parseFolderAction (Option.some "keep") = Option.some FolderAction.keep := by
  exact ⟨rfl, by decide⟩

/-- C8: when the inner classify call raises, the multiplexer records a
failure on the worker, bumps its consecutive-failure count, sets its
cooldown to `failure_cooldown * min(consecutive_failures, 5)` seconds from
the error time, and returns a response that carries the error (with the
`Unknown` category) instead of propagating the exception. -/
theorem classifyStep_error_effects (failureCooldown started ended : ℚ)
    (w : WorkerModel) (exc : String) (dumpFires : Bool) :
    (classifyStep failureCooldown w started ended (Except.error exc) dumpFires).1.total.failure
        = w.total.failure + 1 ∧
    (classifyStep failureCooldown w started ended (Except.error exc) dumpFires).1.total.success
        = w.total.success ∧
    (classifyStep failureCooldown w started ended (Except.error exc) dumpFires).1.consecutiveFailures
        = w.consecutiveFailures + 1 ∧
    (classifyStep failureCooldown w started ended (Except.error exc) dumpFires).1.cooldownUntil
        = ended + failureCooldown * ((min 5 (w.consecutiveFailures + 1) : Nat) : ℚ) ∧
    (classifyStep failureCooldown w started ended (Except.error exc) dumpFires).2.error
        = Option.some exc ∧
    (classifyStep failureCooldown w started ended (Except.error exc) dumpFires).2.path
        = ["Unknown"] := by
  unfold classifyStep MetricState.record
  cases dumpFires <;> simp

theorem pickFirstMax_mem (l : List WorkerModel) (w : WorkerModel)
    (h : pickFirstMax l = Option.some w) : w ∈ l := by
  cases l with
  | nil => simp [pickFirstMax] at h
  | cons a rest =>
    simp only [pickFirstMax, Option.some.injEq] at h
    subst h
    have key : ∀ (xs : List WorkerModel) (a : WorkerModel),
        xs.foldl (fun c x => if x.currentWeight > c.currentWeight then x else c) a
          ∈ a :: xs := by
      intro xs
      induction xs with
      | nil => intro a; simp
      | cons x xs ih =>
        intro a
        simp only [List.foldl_cons]
        by_cases hc : x.currentWeight > a.currentWeight
        · rw [if_pos hc]
          exact List.mem_cons_of_mem a (ih x)
        · rw [if_neg hc]
          rcases List.mem_cons.mp (ih a) with h | h
          · exact List.mem_cons.mpr (Or.inl h)
          · exact List.mem_cons_of_mem a (List.mem_cons_of_mem x h)
    exact key rest a

theorem availableWorkers_no_future_cooldown (now : ℚ) (ws : List WorkerModel)
    (hnow : 0 ≤ now) (avail : List WorkerModel)
    (h : availableWorkers now ws = Option.some avail) :
    ∀ w ∈ avail, ¬ now < w.cooldownUntil := by
  intro w hw
  have hcons : w ∈ consideredWorkers now ws := by
    unfold availableWorkers at h
    split at h
    · cases h
      exact (List.mem_filter.mp hw).1
    · split at h
      · cases h
        exact (List.mem_filter.mp hw).1
      · cases h
  have hcool : workerInCooldown now w = false := by
    simpa using (List.mem_filter.mp hcons).2
  simp only [workerInCooldown, Bool.and_eq_false_iff, Bool.not_eq_false',
    beq_iff_eq, decide_eq_false_iff_not] at hcool
  rcases hcool with hz | hlt
  · rw [hz]
    linarith
  · exact hlt

/-- C7: worker selection (used by both `classify` and
`advise_folder_action`) never returns a worker whose `cooldown_until` lies
in the future, and when every worker is in cooldown it errors out
(`RuntimeError`, modelled as `none`) rather than choosing any worker. -/
theorem selectWorker_respects_cooldown (now : ℚ) (ws : List WorkerModel)
    (hnow : 0 ≤ now) :
    (∀ w, selectWorker now ws = Option.some w → ¬ now < w.cooldownUntil) ∧
    ((∀ w ∈ ws, now < w.cooldownUntil) → selectWorker now ws = Option.none) := by
  constructor
  · intro w hw
    unfold selectWorker at hw
    cases havail : availableWorkers now ws with
    | none => simp only [havail] at hw; cases hw
    | some available =>
      simp only [havail] at hw
      have hsafe : ∀ u ∈ available, ¬ now < u.cooldownUntil :=
        availableWorkers_no_future_cooldown now ws hnow available havail
      cases hh : (available.filter (fun w =>
          decide (w.total.requests = 0) && decide (w.inFlight = 0))).head? with
      | some selected =>
        simp only [hh, Option.some.injEq] at hw
        have hsel : selected ∈ available := by
          have hmem : selected ∈ available.filter (fun w =>
              decide (w.total.requests = 0) && decide (w.inFlight = 0)) :=
            List.mem_of_mem_head? hh
          exact (List.mem_filter.mp hmem).1
        rw [← hw]
        exact hsafe selected hsel
      | none =>
        simp only [hh] at hw
        cases hp : pickFirstMax (available.map (fun w =>
            { w with currentWeight := w.currentWeight + workerWeight w })) with
        | none => simp only [hp] at hw; cases hw
        | some chosen =>
          simp only [hp, Option.some.injEq] at hw
          have hchosen := pickFirstMax_mem _ _ hp
          rcases List.mem_map.mp hchosen with ⟨orig, horig, heq⟩
          have hcd : chosen.cooldownUntil = orig.cooldownUntil := by
            rw [← heq]
          rw [← hw]
          split
          · simpa [hcd] using hsafe orig horig
          · simpa [hcd] using hsafe orig horig
  · intro hall
    have hcons : consideredWorkers now ws = [] := by
      unfold consideredWorkers
      rw [List.filter_eq_nil_iff]
      intro w hwmem
      have hlt := hall w hwmem
      have hz : ¬ w.cooldownUntil = 0 := by
        intro h0
        rw [h0] at hlt
        linarith
      simp [workerInCooldown, hz, hlt]
    unfold selectWorker availableWorkers
    rw [hcons]
    simp

/-- Witness for C7: with the only worker in cooldown until `t = 10` and
`now = 5`, selection errors out. -/
theorem selectWorker_respects_cooldown_witness :
    selectWorker 5 [{ name := "w", total := emptyMetric, window := emptyMetric,
                      lastUsed := 0, consecutiveFailures := 1, currentWeight := 0,
                      cooldownUntil := 10, inFlight := 0 }] = Option.none := by
  refine (selectWorker_respects_cooldown 5 _ (by norm_num)).2 ?_
  intro w hw
  simp only [List.mem_singleton] at hw
  subst hw
  norm_num

/-- Concrete rule table for the C5 analysis: rule 1 is a final
`disaggregate` rule matching `/f/a.bin`, rule 2 a `keep_parent` marker rule
matching `/f/marker`. -/
def c5Rules : List CompiledRuleModel :=
  [ { pathMatch := Option.some (fun s => s == "/f/a.bin"),
      mimeMatch := Option.none,
      category := ["Docs"],
      folderAction := Option.some FolderAction.disaggregate,
      requiresAI := RequiresAI.final },
    { pathMatch := Option.some (fun s => s == "/f/marker"),
      mimeMatch := Option.none,
      category := ["Software"],
      folderAction := Option.some FolderAction.keep_parent,
      requiresAI := RequiresAI.final } ]

/-- A request whose children are a file hitting the final `disaggregate`
rule and, after it, a file hitting the `keep_parent` marker rule. -/
def c5Request : FolderRequestModel :=
  { folderPath := "/f", folderName := "f",
    children :=
      [ { name := "a.bin", ctype := "file",
          mime := Option.some "application/octet-stream" },
        { name := "marker", ctype := "file" } ],
    totalFiles := 2 }

/-- C5 counterexample: the request's children contain a child (`marker`)
whose matching rule carries `folder_action = KEEP_PARENT`, yet
`advise_folder_action` returns a final `DISAGGREGATE` decision — the earlier
file child's final rule ends the scan before the marker is seen. -/
theorem adviseFolderAction_marker_preempted :
    (adviseFolderAction c5Rules c5Request).isFinal = true ∧
    (adviseFolderAction c5Rules c5Request).action =
      Option.some FolderAction.disaggregate ∧
    ((classifierMatch c5Rules "marker" "/f/marker" "*").map
      (·.folderAction)).join = Option.some FolderAction.keep_parent := by
  exact ⟨rfl, rfl, rfl⟩

/-- A child carrying the `keep_parent` structural marker, per the checks of
`advise_folder_action`. -/
def childKeepParentMarker (rules : List CompiledRuleModel) (folderPath : String)
    (child : ChildEntry) : Prop :=
  (child.ctype = "dir" ∧
    (((classifierMatch rules child.name (childPathOf folderPath child) "*").map
        (·.folderAction)).join = Option.some FolderAction.keep_parent ∨
     ((classifierMatch rules "" (childPathOf folderPath child ++ "/") "*").map
        (·.folderAction)).join = Option.some FolderAction.keep_parent)) ∨
  (child.ctype = "file" ∧
    ((classifierMatch rules child.name (childPathOf folderPath child)
        (child.mime.getD "*")).map
      (·.folderAction)).join = Option.some FolderAction.keep_parent)

/-- A child that cannot preempt the children scan with a non-`KEEP`
outcome: any rule it matches is a `keep_parent` marker, or is final with no
folder action, or is final with folder action `KEEP`. -/
def childScanBenign (rules : List CompiledRuleModel) (folderPath : String)
    (child : ChildEntry) : Prop :=
  child.ctype = "file" →
    ∀ m, classifierMatch rules child.name (childPathOf folderPath child)
        (child.mime.getD "*") = Option.some m →
      m.folderAction = Option.some FolderAction.keep_parent ∨
      (m.requiresAI = RequiresAI.final ∧
        (m.folderAction = Option.none ∨
         m.folderAction = Option.some FolderAction.keep))

theorem adviseChildrenLoop_keep (rules : List CompiledRuleModel)
    (folderPath : String) :
    ∀ (children : List ChildEntry) (j : Nat) (hj : j < children.length),
      childKeepParentMarker rules folderPath (children.get ⟨j, hj⟩) →
      (∀ i (hi : i < j), childScanBenign rules folderPath
        (children.get ⟨i, lt_trans hi hj⟩)) →
      ∃ resp, adviseChildrenLoop rules folderPath children = Option.some resp ∧
        resp.isFinal = true ∧ resp.action = Option.some FolderAction.keep := by
  intro children
  induction children with
  | nil =>
    intro j hj
    exact absurd hj (by simp)
  | cons child rest ih =>
    intro j hj hmark hbenign
    match j with
    | 0 =>
      replace hmark : childKeepParentMarker rules folderPath child := hmark
      rcases hmark with ⟨hdir, hkp⟩ | ⟨hfile, hkp⟩
      · refine ⟨responseDecision .keep ("keep_parent:" ++ child.name), ?_, rfl, rfl⟩
        unfold adviseChildrenLoop
        rw [if_pos hdir, if_pos hkp]
      · have hnotdir : ¬ child.ctype = "dir" := by
          rw [hfile]
          decide
        cases hm : classifierMatch rules child.name (childPathOf folderPath child)
            (child.mime.getD "*") with
        | none =>
          rw [hm] at hkp
          simp at hkp
        | some m =>
          rw [hm] at hkp
          simp at hkp
          refine ⟨responseDecision .keep ("keep_parent:" ++ child.name), ?_, rfl, rfl⟩
          unfold adviseChildrenLoop
          rw [if_neg hnotdir, if_pos hfile]
          simp only [hm]
          rw [if_pos hkp]
    | Nat.succ j' =>
      have hj' : j' < rest.length := by
        simpa using hj
      have hmark' : childKeepParentMarker rules folderPath (rest.get ⟨j', hj'⟩) := hmark
      have hbenign' : ∀ i (hi : i < j'), childScanBenign rules folderPath
          (rest.get ⟨i, lt_trans hi hj'⟩) := by
        intro i hi
        have := hbenign (i + 1) (by omega)
        exact this
      have hrec := ih j' hj' hmark' hbenign'
      by_cases hdir : child.ctype = "dir"
      · by_cases hkp : ((classifierMatch rules child.name
            (childPathOf folderPath child) "*").map (·.folderAction)).join =
              Option.some FolderAction.keep_parent ∨
            ((classifierMatch rules "" (childPathOf folderPath child ++ "/") "*").map
              (·.folderAction)).join = Option.some FolderAction.keep_parent
        · refine ⟨responseDecision .keep ("keep_parent:" ++ child.name), ?_, rfl, rfl⟩
          unfold adviseChildrenLoop
          rw [if_pos hdir, if_pos hkp]
        · obtain ⟨resp, hresp, hfin, hact⟩ := hrec
          refine ⟨resp, ?_, hfin, hact⟩
          unfold adviseChildrenLoop
          rw [if_pos hdir, if_neg hkp]
          exact hresp
      · by_cases hfile : child.ctype = "file"
        · cases hm : classifierMatch rules child.name (childPathOf folderPath child)
              (child.mime.getD "*") with
          | none =>
            obtain ⟨resp, hresp, hfin, hact⟩ := hrec
            refine ⟨resp, ?_, hfin, hact⟩
            unfold adviseChildrenLoop
            rw [if_neg hdir, if_pos hfile]
            simp only [hm]
            exact hresp
          | some m =>
            have hben := hbenign 0 (by omega) hfile m hm
            rcases hben with hkp | ⟨hfin', hnone | hkeep⟩
            · refine ⟨responseDecision .keep ("keep_parent:" ++ child.name),
                ?_, rfl, rfl⟩
              unfold adviseChildrenLoop
              rw [if_neg hdir, if_pos hfile]
              simp only [hm]
              rw [if_pos hkp]
            · obtain ⟨resp, hresp, hfin, hact⟩ := hrec
              refine ⟨resp, ?_, hfin, hact⟩
              unfold adviseChildrenLoop
              rw [if_neg hdir, if_pos hfile]
              simp only [hm]
              rw [if_neg (by simp [hnone]), if_neg (by simp [hnone]),
                if_neg (by simp [hfin'])]
              exact hresp
            · refine ⟨responseDecision (m.folderAction.getD .keep) "rule:final",
                ?_, rfl, ?_⟩
              · unfold adviseChildrenLoop
                rw [if_neg hdir, if_pos hfile]
                simp only [hm]
                rw [if_neg (by simp [hkeep]), if_pos (by simp [hkeep, hfin'])]
              · simp [responseDecision, hkeep]
        · obtain ⟨resp, hresp, hfin, hact⟩ := hrec
          refine ⟨resp, ?_, hfin, hact⟩
          unfold adviseChildrenLoop
          rw [if_neg hdir, if_neg hfile]
          exact hresp

/-- C5 (amended): a `FolderActionRequest` whose children contain a child
(file or directory) matching a `folder_action = KEEP_PARENT` rule gets a
final `KEEP` decision from the rules classifier, PROVIDED no earlier file
child in the children list preempts the scan — i.e. every earlier file child
either matches no rule, or matches a `keep_parent` marker, or a final rule
with no folder action, or a final rule whose folder action is `KEEP`.  (An
earlier file child whose rule is final with a different action, or has
`requires_ai = AI`, ends the scan first — see the counterexample.) -/
theorem adviseFolderAction_keep_parent (rules : List CompiledRuleModel)
    (req : FolderRequestModel) (j : Nat) (hj : j < req.children.length)
    (hmark : childKeepParentMarker rules req.folderPath (req.children.get ⟨j, hj⟩))
    (hbenign : ∀ i (hi : i < j), childScanBenign rules req.folderPath
      (req.children.get ⟨i, lt_trans hi hj⟩)) :
    (adviseFolderAction rules req).isFinal = true ∧
    (adviseFolderAction rules req).action = Option.some FolderAction.keep := by
  obtain ⟨resp, hresp, hfin, hact⟩ :=
    adviseChildrenLoop_keep rules req.folderPath req.children j hj hmark hbenign
  unfold adviseFolderAction
  simp only [hresp]
  exact ⟨hfin, hact⟩

/-- Witness for C5 (amended): the marker child sits at index 1 and the
earlier file child matches no rule, so the folder gets a final `KEEP`. -/
theorem adviseFolderAction_keep_parent_witness :
    (adviseFolderAction c5Rules
      { folderPath := "/f", folderName := "f",
        children := [ { name := "z.txt", ctype := "file",
                        mime := Option.some "text/plain" },
                      { name := "marker", ctype := "file" } ],
        totalFiles := 2 }).isFinal = true ∧
    (adviseFolderAction c5Rules
      { folderPath := "/f", folderName := "f",
        children := [ { name := "z.txt", ctype := "file",
                        mime := Option.some "text/plain" },
                      { name := "marker", ctype := "file" } ],
        totalFiles := 2 }).action = Option.some FolderAction.keep := by
  refine adviseFolderAction_keep_parent c5Rules _ 1 (by simp) (Or.inr ⟨rfl, rfl⟩) ?_
  intro i hi
  have hz : i = 0 := by omega
  subst hz
  intro hfile m hm
  exact Option.noConfusion
    (hm : (Option.none : Option CompiledRuleModel) = Option.some m)

instance : IsTrans FileRow rowKeyLE := by
  constructor
  intro a b c hab hbc
  unfold rowKeyLE at *
  rcases hab with h | ⟨h1, h2⟩ <;> rcases hbc with g | ⟨g1, g2⟩
  · exact Or.inl (by omega)
  · exact Or.inl (by omega)
  · exact Or.inl (by omega)
  · exact Or.inr ⟨by omega, le_trans h2 g2⟩

instance : IsTotal FileRow rowKeyLE := by
  constructor
  intro a b
  unfold rowKeyLE
  rcases Nat.lt_trichotomy (slashCount a.path) (slashCount b.path) with h | h | h
  · exact Or.inl (Or.inl h)
  · rcases le_total a.path b.path with hp | hp
    · exact Or.inl (Or.inr ⟨h, hp⟩)
    · exact Or.inr (Or.inr ⟨h.symm, hp⟩)
  · exact Or.inr (Or.inl h)

/-- C6 counterexample: SQLite `LIKE` treats `_` in the keep folder's path as
a wildcard (and compares ASCII case-insensitively), so the file
`/axb/f.txt` — which is NOT a descendant of the keep folder `/a_b` and meets
all the column conditions — is nevertheless excluded from
`select_unclassified`.  The claim's "descendant" reading would return it. -/
theorem selectUnclassified_wildcard_exclusion :
    selectUnclassified
      [{ path := "/axb/f.txt", mime := "text/plain", size := 1,
         category := Option.none, hash := Option.some "h",
         status := "scanned" }]
      [{ folderPath := "/a_b", action := "keep" }] Option.none = [] ∧
    ¬ ("/a_b/").data.isPrefixOf ("/axb/f.txt").data ∧
    "/axb/f.txt" ≠ "/a_b" := by
  refine ⟨?_, by decide, by decide⟩
  rfl

/-- C6 (amended): `select_unclassified` returns exactly the file rows with
`category IS NULL`, `hash IS NOT NULL` and status `'scanned'` whose path is
not captured — under SQLite `LIKE` semantics (ASCII case-insensitive, with
`%`/`_` wildcards) — by `folder_path || '/%'` or `folder_path` of any
`folder_actions` row with action `'keep'`; ordered by path depth (number of
`/` characters) ascending, then by path; a limit returns the first `limit`
rows of that ordering. -/
theorem selectUnclassified_characterization (files : List FileRow)
    (fas : List FolderActionRow) (n : Nat) :
    (∀ r, r ∈ selectUnclassified files fas Option.none ↔
      (r ∈ files ∧ r.category = Option.none ∧ r.hash ≠ Option.none ∧
       r.status = "scanned" ∧
       ¬ (∃ fa ∈ fas, fa.action = "keep" ∧
          (likeMatch (fa.folderPath ++ "/%").data r.path.data = true ∨
           likeMatch fa.folderPath.data r.path.data = true)))) ∧
    List.Pairwise rowKeyLE (selectUnclassified files fas Option.none) ∧
    selectUnclassified files fas (Option.some n) =
      (selectUnclassified files fas Option.none).take n := by
  refine ⟨?_, ?_, rfl⟩
  · intro r
    unfold selectUnclassified
    rw [List.Perm.mem_iff (List.perm_insertionSort rowKeyLE _)]
    rw [List.mem_filter]
    unfold unclassifiedPred keptByFolder
    constructor
    · rintro ⟨hmem, hcond⟩
      simp only [Bool.and_eq_true, beq_iff_eq, Bool.not_eq_true',
        beq_eq_false_iff_ne, ne_eq] at hcond
      obtain ⟨⟨⟨hcat, hhash⟩, hstat⟩, hkeep⟩ := hcond
      rw [List.any_eq_false] at hkeep
      refine ⟨hmem, hcat, hhash, hstat, ?_⟩
      rintro ⟨fa, hfa, hact, hlike⟩
      apply hkeep fa hfa
      rw [hact]
      simp only [beq_self_eq_true, Bool.true_and, Bool.or_eq_true]
      exact hlike
    · rintro ⟨hmem, hcat, hhash, hstat, hkeep⟩
      refine ⟨hmem, ?_⟩
      simp only [Bool.and_eq_true, beq_iff_eq, Bool.not_eq_true',
        beq_eq_false_iff_ne, ne_eq]
      refine ⟨⟨⟨hcat, hhash⟩, hstat⟩, ?_⟩
      rw [List.any_eq_false]
      intro fa hfa
      by_cases hact : fa.action = "keep"
      · intro habs
        rw [hact] at habs
        simp only [beq_self_eq_true, Bool.true_and, Bool.or_eq_true] at habs
        exact hkeep ⟨fa, hfa, hact, habs⟩
      · intro habs
        simp only [Bool.and_eq_true, beq_iff_eq] at habs
        exact hact habs.1
  · exact List.sorted_insertionSort rowKeyLE _

/-- C1: every destination built by the path synthesizer begins with the
configured target root followed by the file's category segments in order —
in all four branches (explicit template rendering, kept structure without
template, template with no kept parts, bare category + filename). -/
theorem buildDestination_target_then_category (cfg : MediaConfig)
    (node : FileNodeModel) :
    ∃ rest, (buildDestination cfg node).destination =
      cfg.mainTarget ++ node.category ++ rest := by
  unfold buildDestination destinationParts
  dsimp only
  split
  · exact ⟨_, by unfold renderTemplate; simp only [List.append_assoc]; rfl⟩
  · split
    · exact ⟨_, by simp only [List.append_assoc]; rfl⟩
    · split
      · exact ⟨_, by unfold renderTemplate; simp only [List.append_assoc]; rfl⟩
      · exact ⟨_, by simp only [List.append_assoc]; rfl⟩

theorem keepExceptLoop_inDisagg (es : List DirEntry) :
    keepExceptLoop es true = ([], es.map (·.value)) := by
  induction es with
  | nil => rfl
  | cons e rest ih =>
    unfold keepExceptLoop
    by_cases h : isExplicitDisagg e
    · rw [if_pos h, ih]
      rfl
    · rw [if_neg h, if_pos rfl, ih]
      rfl

theorem keepExceptSplit_first_disagg (es : List DirEntry) (d : Nat)
    (hd : d < es.length)
    (hyes : isExplicitDisagg (es.get ⟨d, hd⟩) = true)
    (hno : ∀ k (hk : k < d), isExplicitDisagg (es.get ⟨k, lt_trans hk hd⟩) = false) :
    keepExceptSplit es = ((es.take d).map (·.value), (es.drop d).map (·.value)) := by
  induction es generalizing d with
  | nil => exact absurd hd (by simp)
  | cons e rest ih =>
    match d with
    | 0 =>
      replace hyes : isExplicitDisagg e = true := hyes
      unfold keepExceptSplit keepExceptLoop
      rw [if_pos hyes, keepExceptLoop_inDisagg]
      simp
    | Nat.succ d' =>
      have hno0 : isExplicitDisagg e = false := hno 0 (by omega)
      have hd' : d' < rest.length := by simpa using hd
      have hrec := ih d' hd' hyes (fun k hk => hno (k + 1) (by omega))
      unfold keepExceptSplit keepExceptLoop
      rw [if_neg (by simp [hno0]), if_neg (by simp)]
      unfold keepExceptSplit at hrec
      rw [hrec]
      simp

/-- C3: when the keep pivot (first remaining entry whose action is `KEEP` or
`KEEP_EXCEPT`) carries `KEEP_EXCEPT` and a later entry carries an explicit
`DISAGGREGATE`, every segment from the pivot up to but excluding the first
explicit `DISAGGREGATE` is kept, and the first explicit `DISAGGREGATE`
segment and every segment after it (even one marked `KEEP`) land on the
disaggregated side and are dropped from the destination (shown here for the
no-template branch). -/
theorem buildDestination_keep_except (cfg : MediaConfig) (node : FileNodeModel)
    (entries : List DirEntry) (s rel d : Nat) (pivot : DirEntry)
    (t : List DirEntry)
    (hentries : labelEntries (collectParentEntries node.parentParts)
        node.folderActions = entries)
    (hs : stripPrefixCount cfg entries node.category = s)
    (hrel : findFirstKeepIndex (entries.drop s) = Option.some rel)
    (ht : entries.drop (s + rel) = pivot :: t)
    (hke : pivot.folderAction = Option.some FolderAction.keep_except)
    (hd : d < (pivot :: t).length)
    (hyes : isExplicitDisagg ((pivot :: t).get ⟨d, hd⟩) = true)
    (hno : ∀ k (hk : k < d),
      isExplicitDisagg ((pivot :: t).get ⟨k, lt_trans hk hd⟩) = false) :
    (buildDestination cfg node).kept = ((pivot :: t).take d).map (·.value) ∧
    (buildDestination cfg node).disaggregated =
      ((entries.drop s).take rel).map (·.value) ++
        ((pivot :: t).drop d).map (·.value) ∧
    (templateFor cfg.categories node.category = Option.none →
      (buildDestination cfg node).destination =
        cfg.mainTarget ++ node.category ++
          ((pivot :: t).take d).map (·.value) ++ [node.name]) := by
  have hd1 : 1 ≤ d := by
    by_contra hlt
    have hz : d = 0 := by omega
    subst hz
    replace hyes : isExplicitDisagg pivot = true := hyes
    unfold isExplicitDisagg at hyes
    rw [hke] at hyes
    simp at hyes
  have hsplit : splitKeptDisagg entries s (Option.some rel) =
      (((pivot :: t).take d).map (·.value),
       ((entries.drop s).take rel).map (·.value) ++
         ((pivot :: t).drop d).map (·.value)) := by
    unfold splitKeptDisagg
    dsimp only
    rw [ht]
    dsimp only
    rw [if_pos hke, keepExceptSplit_first_disagg (pivot :: t) d hd hyes hno]
  have hkept_ne : ((pivot :: t).take d).map (·.value) ≠ [] := by
    obtain ⟨d', rfl⟩ : ∃ d', d = d' + 1 := ⟨d - 1, by omega⟩
    simp
  unfold buildDestination
  dsimp only
  rw [hentries, hs, hrel, hsplit]
  refine ⟨rfl, rfl, ?_⟩
  intro htpl
  unfold destinationParts
  dsimp only
  rw [htpl]
  rw [if_neg (by simp [optTruthy]), if_pos hkept_ne]

/-- Concrete configuration for the C3 witness: bare target root, no source
prefixes, no templates. -/
def c3cfg : MediaConfig :=
  { mainTarget := ["target"], sources := [], stripDirs := [],
    sourceWrapperMatch := Option.none, categories := { templates := [] } }

/-- Concrete file for the C3 witness: `/home/docs/keepme/file.txt` with
`/home ↦ KEEP_EXCEPT`, `/home/docs ↦ DISAGGREGATE` (explicit), and
`/home/docs/keepme ↦ KEEP` (explicit, AFTER the first explicit
disaggregate). -/
def c3node : FileNodeModel :=
  { parentParts := ["/", "home", "docs", "keepme"], name := "file.txt",
    category := ["Docs"], metadata := [],
    folderActions :=
      [("/home", FolderAction.keep_except),
       ("/home/docs", FolderAction.disaggregate),
       ("/home/docs/keepme", FolderAction.keep)] }

def c3pivot : DirEntry :=
  { value := "home", lower := "home", absPath := "/home",
    folderAction := Option.some FolderAction.keep_except,
    actionSource := Option.some "explicit" }

def c3docs : DirEntry :=
  { value := "docs", lower := "docs", absPath := "/home/docs",
    folderAction := Option.some FolderAction.disaggregate,
    actionSource := Option.some "explicit" }

def c3keepme : DirEntry :=
  { value := "keepme", lower := "keepme", absPath := "/home/docs/keepme",
    folderAction := Option.some FolderAction.keep,
    actionSource := Option.some "explicit" }

/-- Witness for C3: the pivot `/home` is `KEEP_EXCEPT`, `/home/docs` is the
first explicit `DISAGGREGATE`, and `/home/docs/keepme` is marked `KEEP`
after it — the kept side is exactly `home`, and `docs` and `keepme` are
both disaggregated and absent from the destination. -/
theorem buildDestination_keep_except_witness :
    (buildDestination c3cfg c3node).kept = ["home"] ∧
    (buildDestination c3cfg c3node).disaggregated = ["docs", "keepme"] ∧
    (buildDestination c3cfg c3node).destination =
      ["target", "Docs", "home", "file.txt"] := by
  have hdw : (1 : Nat) < (c3pivot :: [c3docs, c3keepme] : List DirEntry).length := by
    decide
  obtain ⟨h1, h2, h3⟩ := buildDestination_keep_except c3cfg c3node
    (labelEntries (collectParentEntries c3node.parentParts) c3node.folderActions)
    0 0 1 c3pivot [c3docs, c3keepme] rfl (by decide) (by decide) (by decide)
    (by decide) hdw rfl
    (by
      intro k hk
      have hz : k = 0 := by omega
      subst hz
      rfl)
  refine ⟨?_, ?_, ?_⟩
  · rw [h1]
    decide
  · rw [h2]
    decide
  · rw [h3 (by decide)]
    decide

/-!
## Lemmas for the folder-action inheritance claim
-/

theorem joinWith_pySplit (sep : Char) (cs : List Char) :
    joinWith sep (pySplit sep cs) = cs := by
  induction cs with
  | nil => rfl
  | cons c rest ih =>
    simp only [pySplit]
    by_cases hc : c = sep
    · rw [if_pos hc]
      cases hr : pySplit sep rest with
      | nil => exact absurd hr (pySplit_ne_nil sep rest)
      | cons h t =>
        rw [hr] at ih
        simp only [joinWith]
        rw [ih, hc]
        rfl
    · rw [if_neg hc]
      cases hr : pySplit sep rest with
      | nil => exact absurd hr (pySplit_ne_nil sep rest)
      | cons h t =>
        rw [hr] at ih
        cases t with
        | nil =>
          simp only [joinWith] at ih ⊢
          rw [ih]
        | cons h2 t2 =>
          simp only [joinWith] at ih ⊢
          rw [List.cons_append, ih]

theorem count_joinWith (sep : Char) (ps : List (List Char))
    (hps : ∀ p ∈ ps, sep ∉ p) (hne : ps ≠ []) :
    (joinWith sep ps).count sep = ps.length - 1 := by
  induction ps with
  | nil => exact absurd rfl hne
  | cons p rest ih =>
    cases rest with
    | nil =>
      have hz : List.count sep p = 0 := List.count_eq_zero.mpr (hps p (by simp))
      simpa [joinWith] using hz
    | cons q t =>
      have hple : List.count sep p = 0 :=
        List.count_eq_zero.mpr (hps p (by simp))
      have hrec := ih (fun x hx => hps x (List.mem_cons_of_mem p hx)) (by simp)
      simp only [joinWith] at hrec ⊢
      rw [List.count_append, List.count_cons_self, hple, hrec]
      simp only [List.length_cons]
      omega

theorem dropTrailing_sublist (p : Char → Bool) (cs : List Char) :
    List.Sublist (dropTrailing p cs) cs := by
  unfold dropTrailing
  have h := @List.dropWhile_sublist Char cs.reverse p
  have h2 := h.reverse
  simpa using h2

theorem slashCount_ge_parts (f : String) :
    (folderPartsC f).length - 1 ≤ slashCount f := by
  have hjoin : joinWith '/' (folderPartsC f) = pyRstripChar '/' f.data :=
    joinWith_pySplit '/' (pyRstripChar '/' f.data)
  have hcount : (pyRstripChar '/' f.data).count '/' =
      (folderPartsC f).length - 1 := by
    rw [← hjoin]
    exact count_joinWith '/' _ (fun piece hp => pySplit_no_sep '/' _ piece hp)
      (pySplit_ne_nil '/' _)
  have hle : (pyRstripChar '/' f.data).count '/' ≤ f.data.count '/' :=
    (dropTrailing_sublist _ f.data).count_le '/'
  unfold slashCount
  omega

theorem slashCount_joinParts_take (f : String) (i : Nat) (hi1 : 1 ≤ i)
    (hilen : i ≤ (folderPartsC f).length) :
    slashCount (joinParts ((folderPartsC f).take i)) = i - 1 := by
  unfold slashCount joinParts
  have : (joinWith '/' ((folderPartsC f).take i)).count '/' =
      ((folderPartsC f).take i).length - 1 := by
    refine count_joinWith '/' _ ?_ ?_
    · intro piece hp
      exact pySplit_no_sep '/' _ piece (List.take_subset i _ hp)
    · intro habs
      have hlenpos : 0 < (folderPartsC f).length :=
        List.length_pos.mpr (pySplit_ne_nil '/' _)
      have hlen := congrArg List.length habs
      rw [List.length_take] at hlen
      simp only [List.length_nil] at hlen
      omega
  have hlenpos : 0 < (folderPartsC f).length :=
    List.length_pos.mpr (pySplit_ne_nil '/' _)
  show (joinWith '/' ((folderPartsC f).take i)).count '/' = i - 1
  rw [this, List.length_take]
  omega

theorem ancestor_slashCount_lt (f : String) (i : Nat) (hi1 : 1 ≤ i)
    (hilen : i < (folderPartsC f).length) :
    slashCount (joinParts ((folderPartsC f).take i)) < slashCount f := by
  rw [slashCount_joinParts_take f i hi1 (le_of_lt hilen)]
  have := slashCount_ge_parts f
  omega

theorem dictGet_append {β : Type} (m ext : List (String × β)) (k : String) :
    dictGet (m ++ ext) k =
      match dictGet m k with
      | Option.some v => Option.some v
      | Option.none => dictGet ext k := by
  unfold dictGet
  rw [List.find?_append]
  cases hf : m.find? (fun e => e.1 = k) with
  | none => simp
  | some p => simp

theorem dictGet_append_left {β : Type} (m ext : List (String × β)) (k : String)
    (h : (dictGet m k).isSome) : dictGet (m ++ ext) k = dictGet m k := by
  rw [dictGet_append]
  cases hf : dictGet m k with
  | none => rw [hf] at h; simp at h
  | some v => simp

theorem dictGet_eq_none_of_not_mem {β : Type} (m : List (String × β)) (k : String)
    (h : ∀ p ∈ m, p.1 ≠ k) : dictGet m k = Option.none := by
  unfold dictGet
  rw [List.find?_eq_none.mpr]
  · rfl
  · intro p hp
    simp [h p hp]

theorem dictGet_mem_of_some {β : Type} (m : List (String × β)) (k : String)
    (v : β) (h : dictGet m k = Option.some v) : ∃ p ∈ m, p.1 = k := by
  unfold dictGet at h
  cases hf : m.find? (fun e => e.1 = k) with
  | none => rw [hf] at h; simp at h
  | some p =>
    refine ⟨p, List.mem_of_find?_eq_some hf, ?_⟩
    have := List.find?_some hf
    simpa using this

theorem findSome?_isSome_of_mem {α β : Type} (l : List α) (g : α → Option β)
    (x : α) (hx : x ∈ l) (hg : (g x).isSome) : (l.findSome? g).isSome := by
  induction l with
  | nil => cases hx
  | cons h t ih =>
    rw [List.findSome?_cons]
    cases hgh : g h with
    | some b => simp
    | none =>
      rcases List.mem_cons.mp hx with heq | hxt
      · subst heq
        rw [hgh] at hg
        simp at hg
      · simpa using ih hxt

/-- An ancestor with a decided `KEEP` makes `_get_decided_parent` block. -/
theorem getDecidedParent_isSome_of (f : String)
    (acts : List (String × FolderAction)) (i : Nat) (hi1 : 1 ≤ i)
    (hilen : i < (folderPartsC f).length)
    (hk : dictGet acts (joinParts ((folderPartsC f).take i)) =
      Option.some FolderAction.keep) :
    (getDecidedParent f acts).isSome := by
  unfold getDecidedParent
  refine findSome?_isSome_of_mem _ _ i ?_ ?_
  · rw [List.mem_range'_1]
    omega
  · rw [if_pos hk]
    simp

/-- A blocking result of `_get_decided_parent` names an ancestor whose
decided action is `KEEP`. -/
theorem getDecidedParent_some_spec (f : String)
    (acts : List (String × FolderAction)) (p : String)
    (h : getDecidedParent f acts = Option.some p) :
    ∃ i, 1 ≤ i ∧ i < (folderPartsC f).length ∧
      p = joinParts ((folderPartsC f).take i) ∧
      dictGet acts p = Option.some FolderAction.keep := by
  unfold getDecidedParent at h
  obtain ⟨i, hmem, hg⟩ := List.exists_of_findSome?_eq_some h
  rw [List.mem_range'_1] at hmem
  by_cases hk : dictGet acts (joinParts ((folderPartsC f).take i)) =
      Option.some FolderAction.keep
  · rw [if_pos hk] at hg
    have heq := Option.some.inj hg
    refine ⟨i, hmem.1, by omega, heq.symm, ?_⟩
    rw [← heq]
    exact hk
  · rw [if_neg hk] at hg
    cases hg

theorem folderActionLoop_skip (dec : String → FolderAction × String)
    (g : String) (rest : List String) (acts : List (String × FolderAction))
    (decs : List (String × String)) (subs : List String)
    (h : (getDecidedParent g acts).isSome = true) :
    folderActionLoop dec (g :: rest) acts decs subs =
      folderActionLoop dec rest acts decs subs := by
  have hstep : folderActionLoop dec (g :: rest) acts decs subs =
      if (getDecidedParent g acts).isSome then
        folderActionLoop dec rest acts decs subs
      else
        folderActionLoop dec rest (acts ++ [(g, (dec g).1)])
          (decs ++ [(g, (dec g).2)]) (subs ++ [g]) := rfl
  rw [hstep, if_pos h]

theorem folderActionLoop_add (dec : String → FolderAction × String)
    (g : String) (rest : List String) (acts : List (String × FolderAction))
    (decs : List (String × String)) (subs : List String)
    (h : ¬ (getDecidedParent g acts).isSome = true) :
    folderActionLoop dec (g :: rest) acts decs subs =
      folderActionLoop dec rest (acts ++ [(g, (dec g).1)])
        (decs ++ [(g, (dec g).2)]) (subs ++ [g]) := by
  have hstep : folderActionLoop dec (g :: rest) acts decs subs =
      if (getDecidedParent g acts).isSome then
        folderActionLoop dec rest acts decs subs
      else
        folderActionLoop dec rest (acts ++ [(g, (dec g).1)])
          (decs ++ [(g, (dec g).2)]) (subs ++ [g]) := rfl
  rw [hstep, if_neg h]

theorem folderActionLoop_shape (dec : String → FolderAction × String) :
    ∀ (L : List String) (acts : List (String × FolderAction))
      (decs : List (String × String)) (subs : List String),
      ∃ ea es,
        (folderActionLoop dec L acts decs subs).1 = acts ++ ea ∧
        (folderActionLoop dec L acts decs subs).2.2 = subs ++ es ∧
        (∀ p ∈ ea, p.1 ∈ L) ∧ (∀ x ∈ es, x ∈ L) := by
  intro L
  induction L with
  | nil =>
    intro acts decs subs
    exact ⟨[], [], by simp [folderActionLoop], by simp [folderActionLoop],
      by simp, by simp⟩
  | cons g rest ih =>
    intro acts decs subs
    by_cases hskip : (getDecidedParent g acts).isSome = true
    · rw [folderActionLoop_skip dec g rest acts decs subs hskip]
      obtain ⟨ea, es, h1, h2, h3, h4⟩ := ih acts decs subs
      exact ⟨ea, es, h1, h2, fun p hp => List.mem_cons_of_mem g (h3 p hp),
        fun x hx => List.mem_cons_of_mem g (h4 x hx)⟩
    · rw [folderActionLoop_add dec g rest acts decs subs hskip]
      obtain ⟨ea, es, h1, h2, h3, h4⟩ :=
        ih (acts ++ [(g, (dec g).1)]) (decs ++ [(g, (dec g).2)]) (subs ++ [g])
      refine ⟨(g, (dec g).1) :: ea, g :: es, ?_, ?_, ?_, ?_⟩
      · rw [h1, List.append_assoc]
        rfl
      · rw [h2, List.append_assoc]
        rfl
      · intro p hp
        rcases List.mem_cons.mp hp with heq | hp'
        · subst heq
          simp
        · exact List.mem_cons_of_mem g (h3 p hp')
      · intro x hx
        rcases List.mem_cons.mp hx with heq | hx'
        · subst heq
          simp
        · exact List.mem_cons_of_mem g (h4 x hx')

theorem folderActionLoop_keep_inheritance (dec : String → FolderAction × String) :
    ∀ (L : List String) (acts : List (String × FolderAction))
      (decs : List (String × String)) (subs : List String),
      List.Pairwise (fun a b => slashCount a ≤ slashCount b) L →
      L.Nodup →
      (∀ p ∈ acts, p.1 ∉ L) →
      (∀ x ∈ subs, x ∉ L) →
      ∀ f ∈ L,
      ((∃ i, 1 ≤ i ∧ i < (folderPartsC f).length ∧
          dictGet (folderActionLoop dec L acts decs subs).1
            (joinParts ((folderPartsC f).take i)) = Option.some FolderAction.keep) →
        dictGet (folderActionLoop dec L acts decs subs).1 f = Option.none ∧
        f ∉ (folderActionLoop dec L acts decs subs).2.2) ∧
      ((∀ i, 1 ≤ i → i < (folderPartsC f).length →
          dictGet (folderActionLoop dec L acts decs subs).1
            (joinParts ((folderPartsC f).take i)) ≠ Option.some FolderAction.keep) →
        (dictGet (folderActionLoop dec L acts decs subs).1 f).isSome ∧
        f ∈ (folderActionLoop dec L acts decs subs).2.2) := by
  intro L
  induction L with
  | nil =>
    intro _ _ _ _ _ _ _ f hf
    cases hf
  | cons g rest ih =>
    intro acts decs subs hpair hnodup hacts hsubs f hf
    have hpair' := (List.pairwise_cons.mp hpair).2
    have hpairg := (List.pairwise_cons.mp hpair).1
    have hnodup' := (List.nodup_cons.mp hnodup).2
    have hgrest := (List.nodup_cons.mp hnodup).1
    by_cases hskip : (getDecidedParent g acts).isSome = true
    · rw [folderActionLoop_skip dec g rest acts decs subs hskip]
      rcases List.mem_cons.mp hf with hfg | hfr
      · subst hfg
        obtain ⟨ea, es, h1, h2, h3, h4⟩ := folderActionLoop_shape dec rest acts decs subs
        have hfnone : dictGet (folderActionLoop dec rest acts decs subs).1 f =
            Option.none := by
          rw [h1]
          rw [dictGet_append]
          rw [dictGet_eq_none_of_not_mem acts f
            (fun p hp => fun heq => hacts p hp (heq ▸ List.mem_cons_self f rest))]
          exact dictGet_eq_none_of_not_mem ea f
            (fun p hp => fun heq => hgrest (heq ▸ h3 p hp))
        have hfsubs : f ∉ (folderActionLoop dec rest acts decs subs).2.2 := by
          rw [h2]
          intro hmem
          rcases List.mem_append.mp hmem with hm | hm
          · exact hsubs f hm (List.mem_cons_self f rest)
          · exact hgrest (h4 f hm)
        constructor
        · intro _
          exact ⟨hfnone, hfsubs⟩
        · intro hno
          exfalso
          obtain ⟨p, hp⟩ := Option.isSome_iff_exists.mp hskip
          obtain ⟨i, hi1, hilen, hpj, hpk⟩ := getDecidedParent_some_spec f acts p hp
          apply hno i hi1 hilen
          rw [h1, dictGet_append_left acts ea _ (by rw [← hpj, hpk]; simp)]
          rw [← hpj, hpk]
      · have hacts' : ∀ p ∈ acts, p.1 ∉ rest :=
          fun p hp hmem => hacts p hp (List.mem_cons_of_mem g hmem)
        have hsubs' : ∀ x ∈ subs, x ∉ rest :=
          fun x hx hmem => hsubs x hx (List.mem_cons_of_mem g hmem)
        exact ih acts decs subs hpair' hnodup' hacts' hsubs' f hfr
    · rw [folderActionLoop_add dec g rest acts decs subs hskip]
      rcases List.mem_cons.mp hf with hfg | hfr
      · subst hfg
        obtain ⟨ea, es, h1, h2, h3, h4⟩ := folderActionLoop_shape dec rest
          (acts ++ [(f, (dec f).1)]) (decs ++ [(f, (dec f).2)]) (subs ++ [f])
        have hactsf : dictGet acts f = Option.none :=
          dictGet_eq_none_of_not_mem acts f
            (fun p hp => fun heq => hacts p hp (heq ▸ List.mem_cons_self f rest))
        have hmid : dictGet (acts ++ [(f, (dec f).1)]) f =
            Option.some (dec f).1 := by
          rw [dictGet_append, hactsf]
          simp [dictGet]
        constructor
        · rintro ⟨i, hi1, hilen, hkeep⟩
          exfalso
          have hanc := ancestor_slashCount_lt f i hi1 hilen
          rw [h1, dictGet_append] at hkeep
          cases hcase : dictGet (acts ++ [(f, (dec f).1)])
              (joinParts ((folderPartsC f).take i)) with
          | some v =>
            rw [hcase] at hkeep
            have hv : v = FolderAction.keep := by
              simpa using hkeep
            subst hv
            rw [dictGet_append] at hcase
            cases hacase : dictGet acts (joinParts ((folderPartsC f).take i)) with
            | some w =>
              rw [hacase] at hcase
              have hw : w = FolderAction.keep := by
                simpa using hcase
              subst hw
              exact hskip (getDecidedParent_isSome_of f acts i hi1 hilen hacase)
            | none =>
              rw [hacase] at hcase
              simp only [dictGet, List.find?] at hcase
              by_cases heq : f = joinParts ((folderPartsC f).take i)
              · rw [← heq] at hanc
                exact lt_irrefl _ hanc
              · have : (decide (f = joinParts ((folderPartsC f).take i))) = false := by
                  simpa using heq
                simp [this] at hcase
          | none =>
            rw [hcase] at hkeep
            obtain ⟨p, hpmem, hpk⟩ := dictGet_mem_of_some ea _ _ hkeep
            have hprest : p.1 ∈ rest := h3 p hpmem
            have hdepth := hpairg p.1 hprest
            rw [hpk] at hdepth
            omega
        · intro _
          constructor
          · rw [h1, dictGet_append_left _ ea f (by rw [hmid]; simp)]
            rw [hmid]
            simp
          · rw [h2]
            refine List.mem_append.mpr (Or.inl ?_)
            simp
      · have hacts' : ∀ p ∈ acts ++ [(g, (dec g).1)], p.1 ∉ rest := by
          intro p hp hmem
          rcases List.mem_append.mp hp with hm | hm
          · exact hacts p hm (List.mem_cons_of_mem g hmem)
          · have : p = (g, (dec g).1) := by simpa using hm
            subst this
            exact hgrest hmem
        have hsubs' : ∀ x ∈ subs ++ [g], x ∉ rest := by
          intro x hx hmem
          rcases List.mem_append.mp hx with hm | hm
          · exact hsubs x hm (List.mem_cons_of_mem g hmem)
          · have : x = g := by simpa using hm
            subst this
            exact hgrest hmem
        exact ih (acts ++ [(g, (dec g).1)]) (decs ++ [(g, (dec g).2)])
          (subs ++ [g]) hpair' hnodup' hacts' hsubs' f hfr

instance : IsTotal String (fun a b => slashCount a ≤ slashCount b) :=
  ⟨fun a b => Nat.le_total (slashCount a) (slashCount b)⟩

instance : IsTrans String (fun a b => slashCount a ≤ slashCount b) :=
  ⟨fun _ _ _ => Nat.le_trans⟩

/-- C2: in build_folder_action_map, a folder `f` that has an ancestor whose decided
action in the returned map is KEEP gets no entry in the actions map and is never
submitted to the classifier chain; if no ancestor's decided action is KEEP
(in particular when ancestors carry KEEP_EXCEPT or DISAGGREGATE), `f` is submitted
and does receive an entry. -/
theorem buildFolderActionMap_keep_inheritance
    (dec : String → FolderAction × String) (folders : List String)
    (hnodup : folders.Nodup) (f : String) (hf : f ∈ folders) :
    ((∃ i, 1 ≤ i ∧ i < (folderPartsC f).length ∧
        dictGet (buildFolderActionMap dec folders).1
          (joinParts ((folderPartsC f).take i)) = Option.some FolderAction.keep) →
      dictGet (buildFolderActionMap dec folders).1 f = Option.none ∧
      f ∉ (buildFolderActionMap dec folders).2.2) ∧
    ((∀ i, 1 ≤ i → i < (folderPartsC f).length →
        dictGet (buildFolderActionMap dec folders).1
          (joinParts ((folderPartsC f).take i)) ≠ Option.some FolderAction.keep) →
      (dictGet (buildFolderActionMap dec folders).1 f).isSome = true ∧
      f ∈ (buildFolderActionMap dec folders).2.2) := by
  unfold buildFolderActionMap
  have hperm :=
    List.perm_insertionSort (fun a b : String => slashCount a ≤ slashCount b) folders
  exact folderActionLoop_keep_inheritance dec
    (folders.insertionSort (fun a b => slashCount a ≤ slashCount b)) [] [] []
    (List.sorted_insertionSort _ folders) (hperm.symm.nodup hnodup)
    (fun p hp => absurd hp (List.not_mem_nil p))
    (fun x hx => absurd hx (List.not_mem_nil x))
    f (hperm.mem_iff.mpr hf)

def c2dec (f : String) : FolderAction × String :=
  if f = "/a" then (FolderAction.keep, "rule:keep") else
    (FolderAction.disaggregate, "ai:disaggregate")

theorem buildFolderActionMap_keep_inheritance_witness :
    dictGet (buildFolderActionMap c2dec ["/a", "/a/b"]).1 "/a/b" = Option.none ∧
    "/a/b" ∉ (buildFolderActionMap c2dec ["/a", "/a/b"]).2.2 :=
  (buildFolderActionMap_keep_inheritance c2dec ["/a", "/a/b"] (by decide)
      "/a/b" (by decide)).1
    ⟨2, by decide, by decide, by decide⟩

end FileSorter
